import Mathlib

/-!
sshext: OpenSSH protocol extensions (no-more-sessions, host-key rotation).

A shallow embedding of `sshext.go`.

* Byte strings (`[]byte` and Go `string`) are lists of bytes. A Go `nil` slice and
  an empty slice are both the empty list.
* The primitives of `golang.org/x/crypto/ssh` that the package calls
  (`ssh.Marshal`, `ssh.Unmarshal` on the struct shapes used here) are written out as
  the library implements them: a string or `[]byte` field is framed as
  `uint32(len)` in big-endian order followed by the bytes, so lengths are
  taken modulo `2^32` exactly where the library converts an `int` to `uint32`.
* `ssh.ParsePublicKey`, the signers and the transport are parameters.
* `rand.Reader` is a state of type `R` threaded through every `Sign` call.
* The relaying goroutines are small-step machines over the buffered channels.
-/

namespace Sshext

/-! ## Bytes and the wire framing of `golang.org/x/crypto/ssh` -/

abbrev Byte := Fin 256

abbrev Bytes := List Byte

/-- The bytes of an ASCII string constant (one byte per character). -/
def asciiBytes (s : String) : Bytes := s.data.map (fun c => Fin.ofNat c.toNat)

/-- Size of the buffered request channels (`chanSize`). -/
def chanSize : Nat := 16

def requestTypeHostKeys : Bytes := asciiBytes "hostkeys-00@openssh.com"

def requestTypeHostKeysProve : Bytes := asciiBytes "hostkeys-prove-00@openssh.com"

def requestTypeNoMoreSessions : Bytes := asciiBytes "no-more-sessions@openssh.com"

/-- Library `appendU32(buf, n)` on an empty buffer: the bytes
`n>>24, n>>16, n>>8, n`, each truncated to a byte. -/
def appendU32 (n : Nat) : Bytes :=
  [Fin.ofNat (n / 16777216), Fin.ofNat (n / 65536), Fin.ofNat (n / 256), Fin.ofNat n]

/-- Library `appendInt(buf, n)`: `appendU32(buf, uint32(n))`. -/
def appendInt (n : Nat) : Bytes := appendU32 (n % 4294967296)

/-- Library `binary.BigEndian.Uint32`. -/
def uint32BE (b0 b1 b2 b3 : Byte) : Nat :=
  b3.val + b2.val * 256 + b1.val * 65536 + b0.val * 16777216

/-- What `ssh.Marshal` writes for one `string` field, or one `[]byte` field without
the `rest` tag: `appendInt(len(s))` followed by the bytes. -/
def marshalStringField (s : Bytes) : Bytes := appendInt s.length ++ s

/-- Library `parseString`: fails when fewer than four bytes are left or when
`uint32(len(in)) < length`; otherwise splits off `length` bytes. -/
def parseString (input : Bytes) : Option (Bytes × Bytes) :=
  match input with
  | b0 :: b1 :: b2 :: b3 :: rest =>
    if rest.length % 4294967296 < uint32BE b0 b1 b2 b3 then none
    else some (rest.take (uint32BE b0 b1 b2 b3), rest.drop (uint32BE b0 b1 b2 b3))
  | _ => none

/-- The anonymous struct `{ Blob string; Rest []byte (ssh:"rest") }` of
`parsePublicKeys`. -/
structure BlobMsg where
  Blob : Bytes
  Rest : Bytes
deriving DecidableEq

/-- The call `ssh.Unmarshal(p, &msg)` for `msg` of type `BlobMsg`: empty data is a
parse error, the `string` field is read with `parseString`, the `rest` field takes
everything that is left. `none` stands for a non-nil error. -/
def Unmarshal (data : Bytes) : Option BlobMsg :=
  if data.length = 0 then none
  else
    match parseString data with
    | none => none
    | some (s, rest) => some ⟨s, rest⟩

/-! ## Keys, signatures, signers -/

/-- An `ssh.PublicKey` as this package observes it: its `Type()` and `Marshal()`
(`Verify` is never called here). -/
structure PublicKey where
  Typ : Bytes
  Marshal : Bytes
deriving DecidableEq

/-- The struct `ssh.Signature`. -/
structure Signature where
  Format : Bytes
  Blob : Bytes
  Rest : Bytes
deriving DecidableEq

/-- An `ssh.Signer`: `PublicKey()` and `Sign(rand, data)`. `Sign` consumes the random
source `R` and returns the signature, or `none` for a non-nil error. -/
structure Signer (R : Type) where
  PublicKey : PublicKey
  Sign : R → Bytes → Option Signature × R

/-- The errors this package builds with `fmt.Errorf`. -/
inductive Error where
  | failedToSendRequest
  | failedToUnmarshalPayload
  | failedToParsePublicKey
deriving DecidableEq

/-- An inbound `ssh.Request` (its reply sink is modelled by the events below). -/
structure Request where
  Typ : Bytes
  WantReply : Bool
  Payload : Bytes
deriving DecidableEq

/-! ## KeyCodec -/

/-- The struct returned by `wrapStruct`: a single anonymous `string` field. -/
structure StringMsg where
  string : Bytes
deriving DecidableEq

def wrapStruct (p : Bytes) : StringMsg := ⟨p⟩

/-- The call `ssh.Marshal(msg)` for a `StringMsg`. -/
def MarshalStringMsg (msg : StringMsg) : Bytes := marshalStringField msg.string

/-- The function `marshalPublicKeys`: the loop appends to a buffer. -/
def marshalPublicKeys {R : Type} (signers : List (Signer R)) : Bytes :=
  signers.foldl (fun buf s => buf ++ MarshalStringMsg (wrapStruct s.PublicKey.Marshal)) []

/-- The call `ssh.Marshal(s)` for an `ssh.Signature`: two framed fields and the raw
`rest` bytes. -/
def MarshalSignature (s : Signature) : Bytes :=
  marshalStringField s.Format ++ marshalStringField s.Blob ++ s.Rest

/-- The function `marshalSignatures`. -/
def marshalSignatures (signatures : List Signature) : Bytes :=
  signatures.foldl (fun buf s => buf ++ MarshalStringMsg (wrapStruct (MarshalSignature s))) []

set_option linter.unusedVariables false in
/-- The loop of `parsePublicKeys` with its two variables `keys` and `p`; the result is
the pair `(keys, err)` that the Go function returns. -/
def parsePublicKeysLoop (ParsePublicKey : Bytes → Option PublicKey)
    (keys : List PublicKey) (p : Bytes) : List PublicKey × Option Error :=
  if p.length > 0 then
    match h : Unmarshal p with
    | none => ([], some Error.failedToUnmarshalPayload)
    | some msg =>
      match ParsePublicKey msg.Blob with
      | none => ([], some Error.failedToParsePublicKey)
      | some key => parsePublicKeysLoop ParsePublicKey (keys ++ [key]) msg.Rest
  else (keys, none)
termination_by p.length
decreasing_by
  simp only [Unmarshal] at h
  split at h
  · simp at h
  · split at h
    · simp at h
    · rename_i hp
      simp only [Option.some.injEq] at h
      subst h
      simp only [parseString] at hp
      split at hp
      · split at hp
        · simp at hp
        · simp only [Option.some.injEq, Prod.mk.injEq] at hp
          obtain ⟨_, rfl⟩ := hp
          simp only [List.length_drop, List.length_cons]
          omega
      · simp at hp

/-- The function `parsePublicKeys`. -/
def parsePublicKeys (ParsePublicKey : Bytes → Option PublicKey) (p : Bytes) :
    List PublicKey × Option Error :=
  parsePublicKeysLoop ParsePublicKey [] p

/-- The function `findKnown`: the first signer whose key marshals to the same bytes. -/
def findKnown {R : Type} (signers : List (Signer R)) (key : PublicKey) : Option (Signer R) :=
  match signers with
  | [] => none
  | s :: rest => if s.PublicKey.Marshal = key.Marshal then some s else findKnown rest key

/-- The struct `hostKeysProveMsg`. -/
structure hostKeysProveMsg where
  RequestType : Bytes
  SessionID : Bytes
  Key : Bytes
deriving DecidableEq

/-- The call `ssh.Marshal(msg)` for a `hostKeysProveMsg`: three framed fields. -/
def MarshalHostKeysProveMsg (msg : hostKeysProveMsg) : Bytes :=
  marshalStringField msg.RequestType ++ marshalStringField msg.SessionID ++
    marshalStringField msg.Key

/-- The bytes that `signHostKey` hands to `signer.Sign`. -/
def signHostKeyData (key : PublicKey) (sessionID : Bytes) : Bytes :=
  MarshalHostKeysProveMsg
    { RequestType := requestTypeHostKeysProve, SessionID := sessionID, Key := key.Marshal }

/-- The function `signHostKey`. -/
def signHostKey {R : Type} (signer : Signer R) (key : PublicKey) (sessionID : Bytes) (rand : R) :
    Option Signature × R :=
  signer.Sign rand (signHostKeyData key sessionID)

/-! ## OwnershipProver -/

/-- The observable calls made while a challenge is answered: `signer.Sign(rand.Reader, data)`
(the signer is named by its public key) and `req.Reply(ok, payload)`. -/
inductive Event where
  | sign (signer : PublicKey) (data : Bytes)
  | reply (ok : Bool) (payload : Bytes)
deriving DecidableEq

/-- The `for _, key := range keys` loop of `proveOwnership` with its variable `sigs`,
followed by the final `req.Reply(true, marshalSignatures(sigs))`. Returns the calls made,
in order, and the random source after them. -/
def proveOwnershipLoop {R : Type} (signers : List (Signer R)) (sessionID : Bytes) :
    List PublicKey → List Signature → R → List Event × R
  | [], sigs, rand => ([Event.reply true (marshalSignatures sigs)], rand)
  | key :: keys, sigs, rand =>
    match findKnown signers key with
    | none => ([Event.reply false []], rand)
    | some known =>
      match signHostKey known key sessionID rand with
      | (none, rand1) =>
        ([Event.sign known.PublicKey (signHostKeyData key sessionID), Event.reply false []], rand1)
      | (some sig, rand1) =>
        let out := proveOwnershipLoop signers sessionID keys (sigs ++ [sig]) rand1
        (Event.sign known.PublicKey (signHostKeyData key sessionID) :: out.1, out.2)

/-- The function `proveOwnership`. -/
def proveOwnership {R : Type} (ParsePublicKey : Bytes → Option PublicKey)
    (signers : List (Signer R)) (sessionID : Bytes) (req : Request) (rand : R) :
    List Event × R :=
  match parsePublicKeys ParsePublicKey req.Payload with
  | (_, some _) => ([Event.reply false []], rand)
  | (keys, none) => proveOwnershipLoop signers sessionID keys [] rand

/-- The `req.Reply` calls of a trace, in order. -/
def replies : List Event → List (Bool × Bytes)
  | [] => []
  | Event.reply ok payload :: rest => (ok, payload) :: replies rest
  | Event.sign _ _ :: rest => replies rest

/-- The `Sign` calls of a trace, in order. -/
def signCalls : List Event → List (PublicKey × Bytes)
  | [] => []
  | Event.sign k data :: rest => (k, data) :: signCalls rest
  | Event.reply _ _ :: rest => signCalls rest

/-! ## SessionGate: the goroutine of `NoMoreSessions` and its two channels -/

/-- The system set up by `NoMoreSessions`. `reqs` is what is left in the raw stream,
`pending` the request the goroutine has received and not yet sent on, `relayed` the buffer
of the channel `relayed` (capacity `chanSize`, oldest first), `noMore` the number of values
in the buffer of the channel `noMore` (capacity 1), `closed` whether both channels were
closed; `delivered` and `notified` are what the application has received from them. -/
structure GateState where
  reqs : List Request
  pending : Option Request
  relayed : List Request
  noMore : Nat
  closed : Bool
  delivered : List Request
  notified : Nat
deriving DecidableEq

/-- Who moves: the goroutine, or the application receiving from one of the channels. -/
inductive GateAction where
  | worker
  | recvRelayed
  | recvNoMore
deriving DecidableEq

/-- The function `NoMoreSessions`: the fresh channels, the goroutine at the head of its
loop, and the `nil` error. -/
def NoMoreSessions (reqs : List Request) : GateState × Option Error :=
  ({ reqs := reqs, pending := none, relayed := [], noMore := 0, closed := false,
     delivered := [], notified := 0 }, none)

/-- One step of the goroutine. At the head of the loop it receives the next request, or
leaves the loop and closes both channels when the stream is exhausted. Holding a request it
executes the send statement; a send on a full buffer blocks, so the state does not change. -/
def gateWorker (s : GateState) : GateState :=
  match s.pending with
  | some req =>
    if req.Typ = requestTypeNoMoreSessions then
      if s.noMore < 1 then { s with noMore := s.noMore + 1, pending := none } else s
    else
      if s.relayed.length < chanSize then
        { s with relayed := s.relayed ++ [req], pending := none }
      else s
  | none =>
    match s.reqs with
    | req :: rest => { s with reqs := rest, pending := some req }
    | [] => { s with closed := true }

def gateStep (a : GateAction) (s : GateState) : GateState :=
  match a with
  | GateAction.worker => gateWorker s
  | GateAction.recvRelayed =>
    match s.relayed with
    | req :: rest => { s with relayed := rest, delivered := s.delivered ++ [req] }
    | [] => s
  | GateAction.recvNoMore =>
    if 0 < s.noMore then { s with noMore := s.noMore - 1, notified := s.notified + 1 } else s

def gateRun (acts : List GateAction) (s : GateState) : GateState :=
  acts.foldl (fun st a => gateStep a st) s

/-- The goroutine is stuck at `noMore <- struct{}{}`: the buffer is full. -/
def blockedOnNoMore (s : GateState) : Bool :=
  match s.pending with
  | some req => decide (req.Typ = requestTypeNoMoreSessions) && !decide (s.noMore < 1)
  | none => false

/-- Everything sent on the filtered output so far: received by the application or still
buffered. -/
def GateState.emitted (s : GateState) : List Request := s.delivered ++ s.relayed

/-- Every notification sent on the signal channel so far. -/
def GateState.signals (s : GateState) : Nat := s.notified + s.noMore

/-- The requests the goroutine has not finished with: the held one and the unread ones. -/
def GateState.remaining (s : GateState) : List Request := s.pending.toList ++ s.reqs

/-! ## HostKeyRotator: `UpdateHostKeys` and its goroutine -/

/-- The parts of `ssh.ServerConn` used: `SessionID()` and `SendRequest(name, wantReply,
payload)`, of which only the error is looked at (`none` is a `nil` error). -/
structure ServerConn where
  SessionID : Bytes
  SendRequest : Bytes → Bool → Bytes → Option Bytes

/-- A call of `conn.SendRequest`. -/
structure Outbound where
  name : Bytes
  wantReply : Bool
  payload : Bytes
deriving DecidableEq

/-- The function `sendHostKeys`: the error it returns and the request it sent. -/
def sendHostKeys {R : Type} (conn : ServerConn) (signers : List (Signer R)) :
    Option Error × List Outbound :=
  let payload := marshalPublicKeys signers
  match conn.SendRequest requestTypeHostKeys false payload with
  | some _ => (some Error.failedToSendRequest, [⟨requestTypeHostKeys, false, payload⟩])
  | none => (none, [⟨requestTypeHostKeys, false, payload⟩])

/-- Which channel `UpdateHostKeys` returns: its argument `reqs` or the new `relayed`. -/
inductive Chan where
  | reqs
  | relayed
deriving DecidableEq

/-- The system after `UpdateHostKeys`. `spawned` tells whether the goroutine was started;
`signers` and `id` are the variables it captured; `answered` lists the prove-ownership
requests handled with the calls `proveOwnership` made for each; `rand` is the random
source. The other fields are as in `GateState`. -/
structure RotatorState (R : Type) where
  spawned : Bool
  signers : List (Signer R)
  id : Bytes
  reqs : List Request
  pending : Option Request
  relayed : List Request
  closed : Bool
  delivered : List Request
  answered : List (Request × List Event)
  rand : R

inductive RotatorAction where
  | worker
  | recvRelayed
deriving DecidableEq

/-- What `UpdateHostKeys` returns and does: the channel, the error, the calls of
`conn.SendRequest`, and the system it leaves behind. -/
structure UpdateHostKeysResult (R : Type) where
  stream : Chan
  err : Option Error
  outbound : List Outbound
  state : RotatorState R

/-- The function `UpdateHostKeys`. -/
def UpdateHostKeys {R : Type} (conn : ServerConn) (reqs : List Request)
    (signers : List (Signer R)) (rand : R) : UpdateHostKeysResult R :=
  match sendHostKeys conn signers with
  | (some err, out) =>
    { stream := Chan.reqs, err := some err, outbound := out,
      state := { spawned := false, signers := signers, id := [], reqs := reqs,
                 pending := none, relayed := [], closed := false, delivered := [],
                 answered := [], rand := rand } }
  | (none, out) =>
    { stream := Chan.relayed, err := none, outbound := out,
      state := { spawned := true, signers := signers, id := conn.SessionID, reqs := reqs,
                 pending := none, relayed := [], closed := false, delivered := [],
                 answered := [], rand := rand } }

/-- One step of the goroutine of `UpdateHostKeys`; nothing happens when it was never
started. -/
def rotatorWorker {R : Type} (ParsePublicKey : Bytes → Option PublicKey)
    (s : RotatorState R) : RotatorState R :=
  if s.spawned then
    match s.pending with
    | some req =>
      if req.Typ = requestTypeHostKeysProve then
        let out := proveOwnership ParsePublicKey s.signers s.id req s.rand
        { s with answered := s.answered ++ [(req, out.1)], rand := out.2, pending := none }
      else
        if s.relayed.length < chanSize then
          { s with relayed := s.relayed ++ [req], pending := none }
        else s
    | none =>
      match s.reqs with
      | req :: rest => { s with reqs := rest, pending := some req }
      | [] => { s with closed := true }
  else s

def rotatorStep {R : Type} (ParsePublicKey : Bytes → Option PublicKey) (a : RotatorAction)
    (s : RotatorState R) : RotatorState R :=
  match a with
  | RotatorAction.worker => rotatorWorker ParsePublicKey s
  | RotatorAction.recvRelayed =>
    match s.relayed with
    | req :: rest => { s with relayed := rest, delivered := s.delivered ++ [req] }
    | [] => s

def rotatorRun {R : Type} (ParsePublicKey : Bytes → Option PublicKey)
    (acts : List RotatorAction) (s : RotatorState R) : RotatorState R :=
  acts.foldl (fun st a => rotatorStep ParsePublicKey a st) s

def RotatorState.emitted {R : Type} (s : RotatorState R) : List Request :=
  s.delivered ++ s.relayed

def RotatorState.remaining {R : Type} (s : RotatorState R) : List Request :=
  s.pending.toList ++ s.reqs

/-- Handing each request of a list to `proveOwnership` in turn, with the same signers and
session ID, the random source being passed along. -/
def answerAll {R : Type} (ParsePublicKey : Bytes → Option PublicKey)
    (signers : List (Signer R)) (sessionID : Bytes) :
    List Request → R → List (Request × List Event) × R
  | [], rand => ([], rand)
  | req :: rest, rand =>
    let out := proveOwnership ParsePublicKey signers sessionID req rand
    let tail := answerAll ParsePublicKey signers sessionID rest out.2
    ((req, out.1) :: tail.1, tail.2)

/-! ## Sample data -/

/-- A sample `ssh.ParsePublicKey`: every non-empty blob is a key that marshals to itself. -/
def sampleParse (blob : Bytes) : Option PublicKey :=
  if blob = [] then none else some ⟨[], blob⟩

/-- A sample signer over a counter as random source: it signs by echoing the counter and
the data, and fails on empty data. -/
def sampleSigner (wire : Bytes) : Signer Nat :=
  { PublicKey := ⟨[], wire⟩
    Sign := fun rand data =>
      if data = [] then (none, rand + 1) else (some ⟨[7], [Fin.ofNat rand], data⟩, rand + 1) }

/-- A sample signer whose `Sign` always returns an error. -/
def sampleFailingSigner (wire : Bytes) : Signer Nat :=
  { PublicKey := ⟨[], wire⟩
    Sign := fun rand _ => (none, rand + 1) }

/-- A blob of `2^32 - 5` zero bytes. -/
@[irreducible]
def hugeBlob : Bytes := List.replicate 4294967291 0

/-- A key encoding of `2^32` bytes. -/
@[irreducible]
def hugeKey : Bytes := List.replicate 4294967296 1

/-! ## Specification vocabulary -/

/-- What holds of the `NoMoreSessions` system at every moment, `reqs` being the raw stream it
was given: the requests the goroutine is done with form a prefix `consumed` of the stream;
the filtered output carries the ordinary requests of that prefix in order; one signal was
sent per no-more-sessions request of it; at most one signal is buffered; once the channels
are closed nothing remains. -/
def GateInv (reqs : List Request) (s : GateState) : Prop :=
  ∃ consumed, reqs = consumed ++ s.remaining ∧
    s.emitted = consumed.filter (fun r => r.Typ ≠ requestTypeNoMoreSessions) ∧
    s.signals = (consumed.filter (fun r => r.Typ = requestTypeNoMoreSessions)).length ∧
    s.noMore ≤ 1 ∧ (s.closed = true → s.remaining = [])

/-- A schedule in which the application reads both channels after every move of the
goroutine: the goroutine receives a request and sends it on, the application receives from
`relayed` and from `noMore`; at the end the goroutine closes the channels. -/
def gateDrain (reqs : List Request) : List GateAction :=
  (reqs.map (fun _ => [GateAction.worker, GateAction.worker, GateAction.recvRelayed,
    GateAction.recvNoMore])).flatten ++ [GateAction.worker]

/-- The four base-256 digits of `n`, most significant first. -/
def bigEndian32 (n : Nat) : Bytes :=
  [Fin.ofNat (n / 16777216 % 256), Fin.ofNat (n / 65536 % 256), Fin.ofNat (n / 256 % 256),
    Fin.ofNat (n % 256)]

/-- A length-prefixed string field: a 4-byte big-endian length, then the bytes. -/
def lengthPrefixed (b : Bytes) : Bytes := bigEndian32 b.length ++ b

/-- Packing convention of the codec: the fields one after the other, no separator. -/
def packed (items : List Bytes) : Bytes := (items.map lengthPrefixed).flatten

/-- Every key of the list is matched and signed in turn: `s_i` is what the signer found for
`k_i` returns for the canonical message of `k_i`, the random source being passed along. -/
inductive SignsAll {R : Type} (signers : List (Signer R)) (sessionID : Bytes) :
    List PublicKey → R → List Signature → R → Prop where
  | nil (rand : R) : SignsAll signers sessionID [] rand [] rand
  | cons {key : PublicKey} {keys : List PublicKey} {known : Signer R} {sig : Signature}
      {sigs : List Signature} {rand rand1 rand2 : R} :
      findKnown signers key = some known →
      known.Sign rand (signHostKeyData key sessionID) = (some sig, rand1) →
      SignsAll signers sessionID keys rand1 sigs rand2 →
      SignsAll signers sessionID (key :: keys) rand (sig :: sigs) rand2

/-- Signing fails for some key: the keys before it are matched and signed, and the signer
matched for it returns an error for its canonical message. -/
inductive SignFails {R : Type} (signers : List (Signer R)) (sessionID : Bytes) :
    List PublicKey → R → Prop where
  | here {key : PublicKey} {keys : List PublicKey} {known : Signer R} {rand : R} :
      findKnown signers key = some known →
      (known.Sign rand (signHostKeyData key sessionID)).1 = none →
      SignFails signers sessionID (key :: keys) rand
  | later {key : PublicKey} {keys : List PublicKey} {known : Signer R} {sig : Signature}
      {rand rand1 : R} :
      findKnown signers key = some known →
      known.Sign rand (signHostKeyData key sessionID) = (some sig, rand1) →
      SignFails signers sessionID keys rand1 →
      SignFails signers sessionID (key :: keys) rand

/-- What holds of the `UpdateHostKeys` system at every moment after a successful
announcement: the goroutine runs with the signers and session ID it was given; the requests
it is done with form a prefix `consumed` of the raw stream; the filtered output carries the
requests of that prefix that are no prove-ownership requests, in order; the prove-ownership
requests of that prefix, and no others, were handed to `proveOwnership` in order. -/
def RotatorInv {R : Type} (ParsePublicKey : Bytes → Option PublicKey)
    (signers : List (Signer R)) (id : Bytes) (rand : R) (reqs : List Request)
    (s : RotatorState R) : Prop :=
  s.spawned = true ∧ s.signers = signers ∧ s.id = id ∧
    ∃ consumed, reqs = consumed ++ s.remaining ∧
      s.emitted = consumed.filter (fun r => r.Typ ≠ requestTypeHostKeysProve) ∧
      (s.answered, s.rand) =
        answerAll ParsePublicKey signers id
          (consumed.filter (fun r => r.Typ = requestTypeHostKeysProve)) rand ∧
      (s.closed = true → s.remaining = [])

/-- A schedule in which the application receives from `relayed` after every move of the
goroutine of `UpdateHostKeys`. -/
def rotatorDrain (reqs : List Request) : List RotatorAction :=
  (reqs.map (fun _ => [RotatorAction.worker, RotatorAction.worker,
    RotatorAction.recvRelayed])).flatten ++ [RotatorAction.worker]

/-- A sample connection whose `SendRequest` succeeds. -/
def sampleConn : ServerConn :=
  { SessionID := [5], SendRequest := fun _ _ _ => none }

/-- A sample connection whose `SendRequest` fails. -/
def sampleBrokenConn : ServerConn :=
  { SessionID := [5], SendRequest := fun _ _ _ => some [1] }

/-- The loop of `parsePublicKeys` allowed at most `fuel` passes through its body, together
with the number of passes it made; `none` when the fuel runs out before the loop ends. -/
def parsePublicKeysFuel (ParsePublicKey : Bytes → Option PublicKey) :
    Nat → List PublicKey → Bytes → Option ((List PublicKey × Option Error) × Nat)
  | 0, keys, p => if p.length > 0 then none else some ((keys, none), 0)
  | fuel + 1, keys, p =>
    if p.length > 0 then
      match Unmarshal p with
      | none => some (([], some Error.failedToUnmarshalPayload), 1)
      | some msg =>
        match ParsePublicKey msg.Blob with
        | none => some (([], some Error.failedToParsePublicKey), 1)
        | some key =>
          match parsePublicKeysFuel ParsePublicKey fuel (keys ++ [key]) msg.Rest with
          | none => none
          | some (res, n) => some (res, n + 1)
    else some ((keys, none), 0)

/-- A signature whose format name has `2^32` bytes. -/
def longFormatSignature : Signature := ⟨0 :: 0 :: 0 :: 0 :: 0 :: hugeBlob, [], []⟩

/-- A signature with empty format name and blob, and a long rest. -/
def longRestSignature : Signature := ⟨[], [], 0 :: (hugeBlob ++ [0, 0, 0, 0])⟩

/-- A schedule in which the application receives from the filtered output only and never
from the signal channel: `true` is a move of the goroutine, `false` a receive from
`relayed`. -/
def gateOutputOnly (acts : List Bool) : List GateAction :=
  acts.map (fun b => if b then GateAction.worker else GateAction.recvRelayed)

/-- The raw stream `no-more-sessions, no-more-sessions, x`, with `x` an ordinary request. -/
def repeatedSignalStream : List Request :=
  [⟨requestTypeNoMoreSessions, false, []⟩, ⟨requestTypeNoMoreSessions, false, []⟩,
    ⟨[1], false, []⟩]

/-- The states the system can be in on `repeatedSignalStream` while the signal channel is
not read: before and after receiving the first request, after its notification, and with
the second request in hand. -/
def repeatedSignalStates : List GateState :=
  [ { reqs := repeatedSignalStream, pending := none, relayed := [], noMore := 0,
      closed := false, delivered := [], notified := 0 },
    { reqs := [⟨requestTypeNoMoreSessions, false, []⟩, ⟨[1], false, []⟩],
      pending := some ⟨requestTypeNoMoreSessions, false, []⟩, relayed := [], noMore := 0,
      closed := false, delivered := [], notified := 0 },
    { reqs := [⟨requestTypeNoMoreSessions, false, []⟩, ⟨[1], false, []⟩],
      pending := none, relayed := [], noMore := 1, closed := false, delivered := [],
      notified := 0 },
    { reqs := [⟨[1], false, []⟩], pending := some ⟨requestTypeNoMoreSessions, false, []⟩,
      relayed := [], noMore := 1, closed := false, delivered := [], notified := 0 } ]

/-! ## Lemmas on the wire framing -/

theorem parseString_length {p s r : Bytes} (h : parseString p = some (s, r)) :
    r.length + 4 ≤ p.length := by
  unfold parseString at h
  split at h
  · split at h
    · simp at h
    · simp only [Option.some.injEq, Prod.mk.injEq] at h
      obtain ⟨_, rfl⟩ := h
      simp
  · simp at h

theorem Unmarshal_length {p : Bytes} {m : BlobMsg} (h : Unmarshal p = some m) :
    m.Rest.length + 4 ≤ p.length := by
  unfold Unmarshal at h
  split at h
  · simp at h
  · split at h
    · simp at h
    · rename_i s rest hp
      simp only [Option.some.injEq] at h
      subst h
      exact parseString_length hp

theorem appendInt_eq_bigEndian32 (n : Nat) : appendInt n = bigEndian32 n := by
  simp only [appendInt, appendU32, bigEndian32, Fin.ofNat, List.cons.injEq, Fin.mk.injEq,
    and_true]
  refine ⟨?_, ?_, ?_, ?_⟩ <;> omega

theorem marshalStringField_eq_lengthPrefixed (b : Bytes) :
    marshalStringField b = lengthPrefixed b := by
  simp only [marshalStringField, lengthPrefixed, appendInt_eq_bigEndian32]

/-- Decoding the four length bytes gives back the length modulo `2^32`. -/
theorem uint32BE_bigEndian32 (n : Nat) :
    ∃ b0 b1 b2 b3, bigEndian32 n = [b0, b1, b2, b3] ∧ uint32BE b0 b1 b2 b3 = n % 4294967296 := by
  refine ⟨_, _, _, _, rfl, ?_⟩
  simp only [uint32BE, Fin.ofNat]
  omega

theorem foldl_append_flatten {α : Type} (f : α → Bytes) (xs : List α) (acc : Bytes) :
    xs.foldl (fun buf x => buf ++ f x) acc = acc ++ (xs.map f).flatten := by
  induction xs generalizing acc with
  | nil => simp
  | cons x xs ih => simp [ih, List.append_assoc]

theorem marshalPublicKeys_eq_packed {R : Type} (signers : List (Signer R)) :
    marshalPublicKeys signers = packed (signers.map (fun s => s.PublicKey.Marshal)) := by
  simp only [marshalPublicKeys, MarshalStringMsg, wrapStruct, foldl_append_flatten, packed,
    List.nil_append, List.map_map]
  congr 1
  apply List.map_congr_left
  intro s _
  exact marshalStringField_eq_lengthPrefixed _

theorem marshalSignatures_eq_packed (sigs : List Signature) :
    marshalSignatures sigs = packed (sigs.map MarshalSignature) := by
  simp only [marshalSignatures, MarshalStringMsg, wrapStruct, foldl_append_flatten, packed,
    List.nil_append, List.map_map]
  congr 1
  apply List.map_congr_left
  intro s _
  exact marshalStringField_eq_lengthPrefixed _

theorem packed_append (a b : List Bytes) : packed (a ++ b) = packed a ++ packed b := by
  simp [packed]

/-! ## C3: the message that is signed -/

/-- C3: for every signer, key, session ID and state of the random source, `signHostKey`
calls `signer.Sign` on exactly three length-prefixed fields and nothing else, in this order:
the request type `hostkeys-prove-00@openssh.com`, the session ID, the wire encoding of the
key; each field is its 4-byte big-endian length followed by its bytes. -/
theorem signHostKey_message {R : Type} (signer : Signer R) (key : PublicKey)
    (sessionID : Bytes) (rand : R) :
    signHostKey signer key sessionID rand =
      signer.Sign rand
        (lengthPrefixed (asciiBytes "hostkeys-prove-00@openssh.com") ++
          (lengthPrefixed sessionID ++ lengthPrefixed key.Marshal)) ∧
    signHostKeyData key sessionID =
      packed [asciiBytes "hostkeys-prove-00@openssh.com", sessionID, key.Marshal] := by
  have h : signHostKeyData key sessionID =
      lengthPrefixed (asciiBytes "hostkeys-prove-00@openssh.com") ++
        (lengthPrefixed sessionID ++ lengthPrefixed key.Marshal) := by
    simp only [signHostKeyData, MarshalHostKeysProveMsg, marshalStringField_eq_lengthPrefixed,
      requestTypeHostKeysProve, List.append_assoc]
  refine ⟨?_, ?_⟩
  · simp only [signHostKey, h]
  · simp only [h, packed, List.map_cons, List.map_nil, List.flatten_cons, List.flatten_nil,
      List.append_nil]

/-! ## C5: the packed public keys -/

/-- C5: for all signer lists, `marshalPublicKeys` is the concatenation, in list order and
with no separator, of one length-prefixed field per signer holding that signer's public-key
wire encoding; it distributes over list concatenation and maps the empty list to the empty
payload. -/
theorem marshalPublicKeys_concat {R : Type} (signers a b : List (Signer R)) :
    marshalPublicKeys signers =
      (signers.map (fun s => bigEndian32 s.PublicKey.Marshal.length ++ s.PublicKey.Marshal)).flatten ∧
    marshalPublicKeys (a ++ b) = marshalPublicKeys a ++ marshalPublicKeys b ∧
    marshalPublicKeys ([] : List (Signer R)) = [] := by
  refine ⟨?_, ?_, ?_⟩
  · rw [marshalPublicKeys_eq_packed]
    simp only [packed, List.map_map]
    rfl
  · simp only [marshalPublicKeys_eq_packed, List.map_append, packed_append]
  · rfl

/-! ## C1, C2: the decision of `proveOwnership` -/

theorem SignsAll_length {R : Type} {signers : List (Signer R)} {sessionID : Bytes}
    {keys : List PublicKey} {rand rand1 : R} {sigs : List Signature}
    (h : SignsAll signers sessionID keys rand sigs rand1) : sigs.length = keys.length := by
  induction h with
  | nil _ => rfl
  | cons _ _ _ ih => simp [ih]

theorem proveOwnershipLoop_signsAll {R : Type} {signers : List (Signer R)} {sessionID : Bytes}
    {keys : List PublicKey} {rand rand1 : R} {sigs : List Signature}
    (h : SignsAll signers sessionID keys rand sigs rand1) (acc : List Signature) :
    replies (proveOwnershipLoop signers sessionID keys acc rand).1 =
        [(true, marshalSignatures (acc ++ sigs))] ∧
      (signCalls (proveOwnershipLoop signers sessionID keys acc rand).1).map Prod.snd =
        keys.map (fun k => signHostKeyData k sessionID) ∧
      (proveOwnershipLoop signers sessionID keys acc rand).2 = rand1 := by
  induction h generalizing acc with
  | nil _ => simp [proveOwnershipLoop, replies, signCalls]
  | @cons key keys known sig sigs rand rand1 rand2 hk hs _ ih =>
    have ih1 := ih (acc ++ [sig])
    simp only [proveOwnershipLoop, hk, signHostKey, hs, replies, signCalls, List.map_cons,
      List.append_assoc, List.singleton_append] at ih1 ⊢
    exact ⟨ih1.1, by rw [ih1.2.1], ih1.2.2⟩

theorem proveOwnershipLoop_unknown {R : Type} (signers : List (Signer R)) (sessionID : Bytes)
    (keys : List PublicKey) (acc : List Signature) (rand : R)
    (h : ∃ key ∈ keys, findKnown signers key = none) :
    replies (proveOwnershipLoop signers sessionID keys acc rand).1 = [(false, [])] := by
  induction keys generalizing acc rand with
  | nil => simp at h
  | cons k ks ih =>
    simp only [proveOwnershipLoop]
    cases hk : findKnown signers k with
    | none => simp [replies]
    | some known =>
      have h1 : ∃ key ∈ ks, findKnown signers key = none := by
        obtain ⟨key, hmem, hnone⟩ := h
        rcases List.mem_cons.mp hmem with rfl | hmem
        · rw [hk] at hnone
          cases hnone
        · exact ⟨key, hmem, hnone⟩
      simp only
      rcases hsig : signHostKey known k sessionID rand with ⟨_ | sig, rand1⟩
      · simp [replies]
      · simp only [replies]
        exact ih _ _ h1

theorem proveOwnershipLoop_signFails {R : Type} {signers : List (Signer R)} {sessionID : Bytes}
    {keys : List PublicKey} {rand : R} (h : SignFails signers sessionID keys rand)
    (acc : List Signature) :
    replies (proveOwnershipLoop signers sessionID keys acc rand).1 = [(false, [])] := by
  induction h generalizing acc with
  | @here key keys known rand hk hs =>
    simp only [proveOwnershipLoop, hk, signHostKey]
    rcases hsig : known.Sign rand (signHostKeyData key sessionID) with ⟨_ | sig, rand1⟩
    · simp [replies]
    · rw [hsig] at hs
      cases hs
  | later hk hs _ ih =>
    simp only [proveOwnershipLoop, hk, signHostKey, hs, replies]
    exact ih _

/-- C1: for every signer list, session ID, challenge and state of the random source,
`proveOwnership` calls `req.Reply(false, nil)` and nothing else on the reply sink whenever
(a) `parsePublicKeys` fails on the payload, or (b) some decoded key is matched by no signer,
or (c) signing fails for some key. -/
theorem proveOwnership_rejects {R : Type} (ParsePublicKey : Bytes → Option PublicKey)
    (signers : List (Signer R)) (sessionID : Bytes) (req : Request) (rand : R)
    (h : (parsePublicKeys ParsePublicKey req.Payload).2 ≠ none ∨
      (∃ key ∈ (parsePublicKeys ParsePublicKey req.Payload).1, findKnown signers key = none) ∨
      SignFails signers sessionID (parsePublicKeys ParsePublicKey req.Payload).1 rand) :
    replies (proveOwnership ParsePublicKey signers sessionID req rand).1 = [(false, [])] := by
  unfold proveOwnership
  rcases hp : parsePublicKeys ParsePublicKey req.Payload with ⟨keys, _ | err⟩
  · rw [hp] at h
    rcases h with h | h | h
    · simp at h
    · exact proveOwnershipLoop_unknown _ _ _ _ _ h
    · exact proveOwnershipLoop_signFails h _
  · simp [replies]

/-- C2: when the payload decodes to keys `k_1..k_n`, each matched by a signer and each
signed successfully, giving `s_1..s_n`, `proveOwnership` calls `req.Reply(true,
marshalSignatures([s_1..s_n]))` and nothing else on the reply sink: the payload packs
exactly `n` signatures in the order of the keys, and `Sign` is called once per occurrence
of a key, on that key's canonical message. -/
theorem proveOwnership_accepts {R : Type} (ParsePublicKey : Bytes → Option PublicKey)
    (signers : List (Signer R)) (sessionID : Bytes) (req : Request) (rand rand1 : R)
    (keys : List PublicKey) (sigs : List Signature)
    (hparse : parsePublicKeys ParsePublicKey req.Payload = (keys, none))
    (hsign : SignsAll signers sessionID keys rand sigs rand1) :
    replies (proveOwnership ParsePublicKey signers sessionID req rand).1 =
        [(true, marshalSignatures sigs)] ∧
      marshalSignatures sigs = packed (sigs.map MarshalSignature) ∧
      sigs.length = keys.length ∧
      (signCalls (proveOwnership ParsePublicKey signers sessionID req rand).1).map Prod.snd =
        keys.map (fun k => signHostKeyData k sessionID) ∧
      (proveOwnership ParsePublicKey signers sessionID req rand).2 = rand1 := by
  have h := proveOwnershipLoop_signsAll hsign []
  simp only [proveOwnership, hparse, List.nil_append] at h ⊢
  exact ⟨h.1, marshalSignatures_eq_packed sigs, SignsAll_length hsign, h.2.1, h.2.2⟩

theorem parsePublicKeysLoop_nil (ParsePublicKey : Bytes → Option PublicKey)
    (keys : List PublicKey) : parsePublicKeysLoop ParsePublicKey keys [] = (keys, none) := by
  rw [parsePublicKeysLoop]
  simp

theorem parsePublicKeysLoop_cons (ParsePublicKey : Bytes → Option PublicKey)
    (keys : List PublicKey) (b : Byte) (p : Bytes) :
    parsePublicKeysLoop ParsePublicKey keys (b :: p) =
      match Unmarshal (b :: p) with
      | none => ([], some Error.failedToUnmarshalPayload)
      | some msg =>
        match ParsePublicKey msg.Blob with
        | none => ([], some Error.failedToParsePublicKey)
        | some key => parsePublicKeysLoop ParsePublicKey (keys ++ [key]) msg.Rest := by
  rw [parsePublicKeysLoop]
  simp only [List.length_cons, gt_iff_lt, Nat.zero_lt_succ, ↓reduceIte]
  split <;> simp_all

theorem parseString_lengthPrefixed (b rest : Bytes) (h1 : b.length < 4294967296)
    (h2 : b.length ≤ (b.length + rest.length) % 4294967296) :
    parseString (lengthPrefixed b ++ rest) = some (b, rest) := by
  obtain ⟨b0, b1, b2, b3, hb, hv⟩ := uint32BE_bigEndian32 b.length
  rw [Nat.mod_eq_of_lt h1] at hv
  simp only [lengthPrefixed, hb, List.cons_append, List.nil_append, parseString, hv,
    List.length_append, List.take_left', List.drop_left']
  rw [if_neg (by omega)]

theorem Unmarshal_lengthPrefixed (b rest : Bytes) (h1 : b.length < 4294967296)
    (h2 : b.length ≤ (b.length + rest.length) % 4294967296) :
    Unmarshal (lengthPrefixed b ++ rest) = some ⟨b, rest⟩ := by
  have hp := parseString_lengthPrefixed b rest h1 h2
  have hl : (lengthPrefixed b ++ rest).length ≠ 0 := by
    simp [lengthPrefixed, bigEndian32]
  simp only [Unmarshal, hp, if_neg hl]

theorem parsePublicKeysLoop_lengthPrefixed (ParsePublicKey : Bytes → Option PublicKey)
    (keys : List PublicKey) (b rest : Bytes) (h1 : b.length < 4294967296)
    (h2 : b.length ≤ (b.length + rest.length) % 4294967296) :
    parsePublicKeysLoop ParsePublicKey keys (lengthPrefixed b ++ rest) =
      match ParsePublicKey b with
      | none => ([], some Error.failedToParsePublicKey)
      | some key => parsePublicKeysLoop ParsePublicKey (keys ++ [key]) rest := by
  have hU := Unmarshal_lengthPrefixed b rest h1 h2
  have hc : lengthPrefixed b ++ rest =
      Fin.ofNat (b.length / 16777216 % 256) ::
        ([Fin.ofNat (b.length / 65536 % 256), Fin.ofNat (b.length / 256 % 256),
          Fin.ofNat (b.length % 256)] ++ b ++ rest) := by
    simp [lengthPrefixed, bigEndian32]
  rw [hc] at hU ⊢
  rw [parsePublicKeysLoop_cons, hU]

theorem parsePublicKeys_sample_two :
    parsePublicKeys sampleParse [0, 0, 0, 3, 1, 2, 3, 0, 0, 0, 1, 9] =
      ([⟨[], [1, 2, 3]⟩, ⟨[], [9]⟩], none) := by
  have h : ([0, 0, 0, 3, 1, 2, 3, 0, 0, 0, 1, 9] : Bytes) =
      lengthPrefixed [1, 2, 3] ++ (lengthPrefixed [9] ++ []) := by decide
  rw [parsePublicKeys, h, parsePublicKeysLoop_lengthPrefixed _ _ _ _ (by decide) (by decide),
    show sampleParse [1, 2, 3] = some ⟨[], [1, 2, 3]⟩ from rfl]
  simp only
  rw [parsePublicKeysLoop_lengthPrefixed _ _ _ _ (by decide) (by decide),
    show sampleParse [9] = some ⟨[], [9]⟩ from rfl]
  simp only [parsePublicKeysLoop_nil, List.nil_append, List.singleton_append]

theorem parsePublicKeys_sample_twice :
    parsePublicKeys sampleParse [0, 0, 0, 3, 1, 2, 3, 0, 0, 0, 3, 1, 2, 3] =
      ([⟨[], [1, 2, 3]⟩, ⟨[], [1, 2, 3]⟩], none) := by
  have h : ([0, 0, 0, 3, 1, 2, 3, 0, 0, 0, 3, 1, 2, 3] : Bytes) =
      lengthPrefixed [1, 2, 3] ++ (lengthPrefixed [1, 2, 3] ++ []) := by decide
  rw [parsePublicKeys, h, parsePublicKeysLoop_lengthPrefixed _ _ _ _ (by decide) (by decide),
    show sampleParse [1, 2, 3] = some ⟨[], [1, 2, 3]⟩ from rfl]
  simp only
  rw [parsePublicKeysLoop_lengthPrefixed _ _ _ _ (by decide) (by decide),
    show sampleParse [1, 2, 3] = some ⟨[], [1, 2, 3]⟩ from rfl]
  simp only [parsePublicKeysLoop_nil, List.nil_append, List.singleton_append]

theorem parsePublicKeys_sample_one :
    parsePublicKeys sampleParse [0, 0, 0, 3, 1, 2, 3] = ([⟨[], [1, 2, 3]⟩], none) := by
  have h : ([0, 0, 0, 3, 1, 2, 3] : Bytes) = lengthPrefixed [1, 2, 3] ++ [] := by decide
  rw [parsePublicKeys, h, parsePublicKeysLoop_lengthPrefixed _ _ _ _ (by decide) (by decide),
    show sampleParse [1, 2, 3] = some ⟨[], [1, 2, 3]⟩ from rfl]
  simp only [parsePublicKeysLoop_nil, List.nil_append]

/-- A challenge holding a known key followed by an unknown key is answered with
`(false, nil)`, and so is a challenge for a key whose signer fails. -/
theorem proveOwnership_rejects_witness :
    ((∃ key ∈ (parsePublicKeys sampleParse [0, 0, 0, 3, 1, 2, 3, 0, 0, 0, 1, 9]).1,
        findKnown [sampleSigner [1, 2, 3]] key = none) ∧
      findKnown [sampleSigner [1, 2, 3]] ⟨[], [1, 2, 3]⟩ = some (sampleSigner [1, 2, 3]) ∧
      replies (proveOwnership sampleParse [sampleSigner [1, 2, 3]] [5]
        ⟨requestTypeHostKeysProve, true, [0, 0, 0, 3, 1, 2, 3, 0, 0, 0, 1, 9]⟩ 0).1 =
        [(false, [])]) ∧
    (SignFails [sampleFailingSigner [1, 2, 3]] [5]
        (parsePublicKeys sampleParse [0, 0, 0, 3, 1, 2, 3]).1 0 ∧
      replies (proveOwnership sampleParse [sampleFailingSigner [1, 2, 3]] [5]
        ⟨requestTypeHostKeysProve, true, [0, 0, 0, 3, 1, 2, 3]⟩ 0).1 = [(false, [])]) := by
  have h : ∃ key ∈ (parsePublicKeys sampleParse [0, 0, 0, 3, 1, 2, 3, 0, 0, 0, 1, 9]).1,
      findKnown [sampleSigner [1, 2, 3]] key = none := by
    rw [parsePublicKeys_sample_two]
    exact ⟨⟨[], [9]⟩, by simp, by simp [findKnown, sampleSigner]⟩
  have hf : SignFails [sampleFailingSigner [1, 2, 3]] [5]
      (parsePublicKeys sampleParse [0, 0, 0, 3, 1, 2, 3]).1 0 := by
    rw [parsePublicKeys_sample_one]
    exact @SignFails.here Nat _ _ _ _ (sampleFailingSigner [1, 2, 3]) 0
      (by simp [findKnown, sampleFailingSigner]) rfl
  exact ⟨⟨h, by simp [findKnown, sampleSigner],
    proveOwnership_rejects sampleParse [sampleSigner [1, 2, 3]] [5]
      ⟨requestTypeHostKeysProve, true, [0, 0, 0, 3, 1, 2, 3, 0, 0, 0, 1, 9]⟩ 0
      (Or.inr (Or.inl h))⟩,
    hf, proveOwnership_rejects sampleParse [sampleFailingSigner [1, 2, 3]] [5]
      ⟨requestTypeHostKeysProve, true, [0, 0, 0, 3, 1, 2, 3]⟩ 0 (Or.inr (Or.inr hf))⟩

theorem sampleSigner_sign (wire : Bytes) (rand : Nat) (key : PublicKey) (sessionID : Bytes) :
    (sampleSigner wire).Sign rand (signHostKeyData key sessionID) =
      (some ⟨[7], [Fin.ofNat rand], signHostKeyData key sessionID⟩, rand + 1) := by
  simp [sampleSigner, signHostKeyData, MarshalHostKeysProveMsg, marshalStringField, appendInt,
    appendU32]

/-- A challenge holding the same known key twice is answered with two signatures. -/
theorem proveOwnership_accepts_witness :
    replies (proveOwnership sampleParse [sampleSigner [1, 2, 3]] [5]
        ⟨requestTypeHostKeysProve, true, [0, 0, 0, 3, 1, 2, 3, 0, 0, 0, 3, 1, 2, 3]⟩ 0).1 =
      [(true, marshalSignatures
        [⟨[7], [0], signHostKeyData ⟨[], [1, 2, 3]⟩ [5]⟩,
         ⟨[7], [1], signHostKeyData ⟨[], [1, 2, 3]⟩ [5]⟩])] :=
  (proveOwnership_accepts sampleParse [sampleSigner [1, 2, 3]] [5]
    ⟨requestTypeHostKeysProve, true, [0, 0, 0, 3, 1, 2, 3, 0, 0, 0, 3, 1, 2, 3]⟩ 0 2
    [⟨[], [1, 2, 3]⟩, ⟨[], [1, 2, 3]⟩]
    [⟨[7], [0], signHostKeyData ⟨[], [1, 2, 3]⟩ [5]⟩,
     ⟨[7], [1], signHostKeyData ⟨[], [1, 2, 3]⟩ [5]⟩]
    parsePublicKeys_sample_twice
    (@SignsAll.cons Nat _ _ _ _ (sampleSigner [1, 2, 3]) _ _ 0 1 2
      (by simp [findKnown, sampleSigner]) (sampleSigner_sign _ _ _ _)
      (@SignsAll.cons Nat _ _ _ _ (sampleSigner [1, 2, 3]) _ _ 1 2 2
        (by simp [findKnown, sampleSigner]) (sampleSigner_sign _ _ _ _)
        (SignsAll.nil 2)))).1

/-! ## C4, C6: decoding packed public keys -/

theorem bigEndian32_uint32BE (b0 b1 b2 b3 : Byte) :
    bigEndian32 (uint32BE b0 b1 b2 b3) = [b0, b1, b2, b3] := by
  have h0 := b0.isLt
  have h1 := b1.isLt
  have h2 := b2.isLt
  have h3 := b3.isLt
  simp only [bigEndian32, uint32BE, Fin.ofNat, List.cons.injEq, and_true]
  refine ⟨?_, ?_, ?_, ?_⟩ <;> apply Fin.ext <;> simp only <;> omega

theorem uint32BE_lt (b0 b1 b2 b3 : Byte) : uint32BE b0 b1 b2 b3 < 4294967296 := by
  have h0 := b0.isLt
  have h1 := b1.isLt
  have h2 := b2.isLt
  have h3 := b3.isLt
  simp only [uint32BE]
  omega

theorem parseString_some {p s r : Bytes} (h : parseString p = some (s, r)) :
    p = lengthPrefixed s ++ r ∧ s.length < 4294967296 := by
  unfold parseString at h
  split at h
  · rename_i b0 b1 b2 b3 rest
    split at h
    · simp at h
    · rename_i hlt
      simp only [Option.some.injEq, Prod.mk.injEq] at h
      obtain ⟨rfl, rfl⟩ := h
      have hL := uint32BE_lt b0 b1 b2 b3
      have hle : uint32BE b0 b1 b2 b3 ≤ rest.length := by
        have := Nat.mod_le rest.length 4294967296
        omega
      have hlen : (List.take (uint32BE b0 b1 b2 b3) rest).length = uint32BE b0 b1 b2 b3 := by
        simp only [List.length_take]
        omega
      refine ⟨?_, by omega⟩
      simp only [lengthPrefixed, hlen, bigEndian32_uint32BE, List.cons_append, List.nil_append,
        List.take_append_drop]
  · simp at h

theorem Unmarshal_some {p : Bytes} {m : BlobMsg} (h : Unmarshal p = some m) :
    p = lengthPrefixed m.Blob ++ m.Rest ∧ m.Blob.length < 4294967296 := by
  unfold Unmarshal at h
  split at h
  · simp at h
  · split at h
    · simp at h
    · rename_i s rest hp
      simp only [Option.some.injEq] at h
      subst h
      exact parseString_some hp

theorem packed_cons (b : Bytes) (bs : List Bytes) :
    packed (b :: bs) = lengthPrefixed b ++ packed bs := by
  simp [packed]

theorem lengthPrefixed_length (b : Bytes) : (lengthPrefixed b).length = b.length + 4 := by
  simp [lengthPrefixed, bigEndian32]

/-- The loop returns either an error with a nil list, or keys without an error. -/
theorem parsePublicKeysLoop_result (ParsePublicKey : Bytes → Option PublicKey) (n : Nat) :
    ∀ (p : Bytes) (keys0 : List PublicKey), p.length ≤ n →
      (∃ e, parsePublicKeysLoop ParsePublicKey keys0 p = ([], some e)) ∨
      (∃ keys, parsePublicKeysLoop ParsePublicKey keys0 p = (keys0 ++ keys, none)) := by
  induction n with
  | zero =>
    intro p keys0 hp
    have : p = [] := List.length_eq_zero.mp (by omega)
    subst this
    exact Or.inr ⟨[], by simp [parsePublicKeysLoop_nil]⟩
  | succ n ih =>
    intro p keys0 hp
    cases p with
    | nil => exact Or.inr ⟨[], by simp [parsePublicKeysLoop_nil]⟩
    | cons b p =>
      rw [parsePublicKeysLoop_cons]
      cases hU : Unmarshal (b :: p) with
      | none => exact Or.inl ⟨_, rfl⟩
      | some msg =>
        simp only
        cases hP : ParsePublicKey msg.Blob with
        | none => exact Or.inl ⟨_, rfl⟩
        | some key =>
          simp only
          have hl := Unmarshal_length hU
          simp only [List.length_cons] at hl hp
          rcases ih msg.Rest (keys0 ++ [key]) (by omega) with ⟨e, he⟩ | ⟨keys, hk⟩
          · exact Or.inl ⟨e, he⟩
          · exact Or.inr ⟨key :: keys, by simp only [hk, List.append_assoc, List.singleton_append]⟩

/-- A successful decode splits the payload into fields. -/
theorem parsePublicKeysLoop_ok (ParsePublicKey : Bytes → Option PublicKey) (n : Nat) :
    ∀ (p : Bytes) (keys0 ks : List PublicKey), p.length ≤ n →
      parsePublicKeysLoop ParsePublicKey keys0 p = (ks, none) →
      ∃ blobs keys, ks = keys0 ++ keys ∧ p = packed blobs ∧
        blobs.map ParsePublicKey = keys.map some ∧ ∀ b ∈ blobs, b.length < 4294967296 := by
  induction n with
  | zero =>
    intro p keys0 ks hp h
    have : p = [] := List.length_eq_zero.mp (by omega)
    subst this
    rw [parsePublicKeysLoop_nil] at h
    simp only [Prod.mk.injEq, and_true] at h
    exact ⟨[], [], by simp [h], rfl, rfl, by simp⟩
  | succ n ih =>
    intro p keys0 ks hp h
    cases p with
    | nil =>
      rw [parsePublicKeysLoop_nil] at h
      simp only [Prod.mk.injEq, and_true] at h
      exact ⟨[], [], by simp [h], rfl, rfl, by simp⟩
    | cons b p =>
      rw [parsePublicKeysLoop_cons] at h
      cases hU : Unmarshal (b :: p) with
      | none => simp [hU] at h
      | some msg =>
        rw [hU] at h
        cases hP : ParsePublicKey msg.Blob with
        | none => simp [hP] at h
        | some key =>
          simp only [hP] at h
          have hl := Unmarshal_length hU
          simp only [List.length_cons] at hl hp
          obtain ⟨blobs, keys, hks, hp2, hmap, hlen⟩ := ih msg.Rest (keys0 ++ [key]) ks (by omega) h
          obtain ⟨hsplit, hblob⟩ := Unmarshal_some hU
          refine ⟨msg.Blob :: blobs, key :: keys, ?_, ?_, ?_, ?_⟩
          · simp only [hks, List.append_assoc, List.singleton_append]
          · rw [hsplit, packed_cons, hp2]
          · simp only [List.map_cons, hP, hmap]
          · intro x hx
            rcases List.mem_cons.mp hx with rfl | hx
            · exact hblob
            · exact hlen x hx

/-- Fields whose contents parse decode to their keys when the payload is short enough for
`uint32(len(in))` to be exact. -/
theorem parsePublicKeysLoop_packed (ParsePublicKey : Bytes → Option PublicKey)
    (blobs : List Bytes) :
    ∀ (keys0 keys : List PublicKey), blobs.map ParsePublicKey = keys.map some →
      (packed blobs).length < 4294967296 →
      parsePublicKeysLoop ParsePublicKey keys0 (packed blobs) = (keys0 ++ keys, none) := by
  induction blobs with
  | nil =>
    intro keys0 keys hmap _
    cases keys with
    | nil => simp [packed, parsePublicKeysLoop_nil]
    | cons k ks => simp at hmap
  | cons b bs ih =>
    intro keys0 keys hmap hlen
    cases keys with
    | nil => simp at hmap
    | cons k ks =>
      simp only [List.map_cons, List.cons.injEq] at hmap
      rw [packed_cons] at hlen ⊢
      simp only [List.length_append, lengthPrefixed_length] at hlen
      rw [parsePublicKeysLoop_lengthPrefixed _ _ _ _ (by omega)
        (by rw [Nat.mod_eq_of_lt (by omega)]; omega), hmap.1]
      simp only
      rw [ih (keys0 ++ [k]) ks hmap.2 (by omega)]
      simp only [List.append_assoc, List.singleton_append]

theorem parsePublicKeysLoop_short (ParsePublicKey : Bytes → Option PublicKey)
    (keys : List PublicKey) (b rest : Bytes) (h1 : b.length < 4294967296)
    (h2 : (b.length + rest.length) % 4294967296 < b.length) :
    parsePublicKeysLoop ParsePublicKey keys (lengthPrefixed b ++ rest) =
      ([], some Error.failedToUnmarshalPayload) := by
  obtain ⟨b0, b1, b2, b3, hb, hv⟩ := uint32BE_bigEndian32 b.length
  rw [Nat.mod_eq_of_lt h1] at hv
  have hp : parseString (lengthPrefixed b ++ rest) = none := by
    simp only [lengthPrefixed, hb, List.cons_append, List.nil_append, parseString, hv,
      List.length_append]
    rw [if_pos h2]
  have hU : Unmarshal (lengthPrefixed b ++ rest) = none := by
    simp only [Unmarshal, hp]
    split <;> rfl
  simp only [lengthPrefixed, hb, List.cons_append, List.nil_append] at hU ⊢
  rw [parsePublicKeysLoop_cons, hU]

/-- Whatever fails to decode still fails behind any number of well-formed fields. -/
theorem parsePublicKeysLoop_tail (ParsePublicKey : Bytes → Option PublicKey) (t : Bytes)
    (ht : ∀ keys0, (parsePublicKeysLoop ParsePublicKey keys0 t).2 ≠ none)
    (blobs : List Bytes) :
    ∀ keys0, (∀ b ∈ blobs, b.length < 4294967296) →
      (parsePublicKeysLoop ParsePublicKey keys0 (packed blobs ++ t)).2 ≠ none := by
  induction blobs with
  | nil =>
    intro keys0 _
    simpa [packed] using ht keys0
  | cons b bs ih =>
    intro keys0 hlen
    have hb : b.length < 4294967296 := hlen b (List.mem_cons_self _ _)
    have hbs : ∀ x ∈ bs, x.length < 4294967296 :=
      fun x hx => hlen x (List.mem_cons_of_mem _ hx)
    rw [packed_cons, List.append_assoc]
    by_cases h2 : b.length ≤ (b.length + (packed bs ++ t).length) % 4294967296
    · rw [parsePublicKeysLoop_lengthPrefixed _ _ _ _ hb h2]
      cases ParsePublicKey b with
      | none => simp
      | some key => exact ih _ hbs
    · rw [parsePublicKeysLoop_short _ _ _ _ hb (by omega)]
      simp

theorem parsePublicKeysLoop_truncated (ParsePublicKey : Bytes → Option PublicKey)
    (keys0 : List PublicKey) (t : Bytes) (h1 : 1 ≤ t.length) (h3 : t.length ≤ 3) :
    (parsePublicKeysLoop ParsePublicKey keys0 t).2 ≠ none := by
  match t, h1, h3 with
  | [a], _, _ => simp [parsePublicKeysLoop_cons, Unmarshal, parseString]
  | [a, b], _, _ => simp [parsePublicKeysLoop_cons, Unmarshal, parseString]
  | [a, b, c], _, _ => simp [parsePublicKeysLoop_cons, Unmarshal, parseString]
  | _ :: _ :: _ :: _ :: _, _, h => simp at h

theorem parsePublicKeysLoop_overlong (ParsePublicKey : Bytes → Option PublicKey)
    (keys0 : List PublicKey) (n : Nat) (u : Bytes) (hn : n < 4294967296) (hu : u.length < n) :
    (parsePublicKeysLoop ParsePublicKey keys0 (bigEndian32 n ++ u)).2 ≠ none := by
  obtain ⟨b0, b1, b2, b3, hb, hv⟩ := uint32BE_bigEndian32 n
  rw [Nat.mod_eq_of_lt hn] at hv
  have hp : parseString (bigEndian32 n ++ u) = none := by
    simp only [hb, List.cons_append, List.nil_append, parseString, hv]
    rw [if_pos (by rw [Nat.mod_eq_of_lt (by omega)]; exact hu)]
  have hU : Unmarshal (bigEndian32 n ++ u) = none := by
    simp only [Unmarshal, hp]
    split <;> rfl
  simp only [hb, List.cons_append, List.nil_append] at hU ⊢
  rw [parsePublicKeysLoop_cons, hU]
  simp

theorem hugeBlob_length : hugeBlob.length = 4294967291 := by
  unfold hugeBlob
  exact List.length_replicate _ _

theorem hugeKey_length : hugeKey.length = 4294967296 := by
  unfold hugeKey
  exact List.length_replicate _ _

theorem sampleParse_of_length_pos (b : Bytes) (h : 0 < b.length) :
    sampleParse b = some ⟨[], b⟩ := by
  have : b ≠ [] := by
    intro hb
    simp [hb] at h
  simp [sampleParse, this]

theorem Unmarshal_emptyBlob (rest : Bytes) :
    Unmarshal (0 :: 0 :: 0 :: 0 :: rest) = some ⟨[], rest⟩ := by
  have hz : uint32BE 0 0 0 0 = 0 := rfl
  simp [Unmarshal, parseString, hz]

/-- C4, as stated, fails: a signer whose (valid) public key has a wire encoding of `2^32`
bytes. Its length prefix wraps to zero, so the decoder reads an empty blob and fails. -/
theorem parsePublicKeys_marshalPublicKeys_counterexample :
    sampleParse (sampleSigner hugeKey).PublicKey.Marshal = some (sampleSigner hugeKey).PublicKey ∧
      parsePublicKeys sampleParse (marshalPublicKeys [sampleSigner hugeKey]) =
        ([], some Error.failedToParsePublicKey) := by
  refine ⟨sampleParse_of_length_pos hugeKey (by rw [hugeKey_length]; omega), ?_⟩
  have hm : marshalPublicKeys [sampleSigner hugeKey] = 0 :: 0 :: 0 :: 0 :: hugeKey := by
    rw [marshalPublicKeys_eq_packed]
    have hb : bigEndian32 4294967296 = [0, 0, 0, 0] := by decide
    simp only [List.map_cons, List.map_nil, sampleSigner, packed, lengthPrefixed,
      List.flatten_cons, List.flatten_nil, List.append_nil, hugeKey_length, hb,
      List.cons_append, List.nil_append]
  rw [parsePublicKeys, hm, parsePublicKeysLoop_cons, Unmarshal_emptyBlob]
  simp only [sampleParse, if_true]

/-- C4 (amended): for every list of signers whose public keys are valid (`ParsePublicKey`
of a key's `Marshal` output returns that key) and whose packed encoding is shorter than
`2^32` bytes, `parsePublicKeys(marshalPublicKeys(signers))` succeeds and returns the
signers' public keys: as many keys as signers, with the same wire encodings, in the same
order. -/
theorem parsePublicKeys_marshalPublicKeys {R : Type} (ParsePublicKey : Bytes → Option PublicKey)
    (signers : List (Signer R))
    (hvalid : ∀ s ∈ signers, ParsePublicKey s.PublicKey.Marshal = some s.PublicKey)
    (hlen : (marshalPublicKeys signers).length < 4294967296) :
    parsePublicKeys ParsePublicKey (marshalPublicKeys signers) =
        (signers.map (fun s => s.PublicKey), none) ∧
      (parsePublicKeys ParsePublicKey (marshalPublicKeys signers)).1.length = signers.length ∧
      (parsePublicKeys ParsePublicKey (marshalPublicKeys signers)).1.map (fun k => k.Marshal) =
        signers.map (fun s => s.PublicKey.Marshal) := by
  have h : parsePublicKeys ParsePublicKey (marshalPublicKeys signers) =
      (signers.map (fun s => s.PublicKey), none) := by
    rw [marshalPublicKeys_eq_packed] at hlen ⊢
    rw [parsePublicKeys, parsePublicKeysLoop_packed ParsePublicKey _ []
      (signers.map (fun s => s.PublicKey)) ?_ hlen]
    · rfl
    · simp only [List.map_map]
      apply List.map_congr_left
      intro s hs
      exact hvalid s hs
  refine ⟨h, ?_, ?_⟩
  · rw [h]
    simp
  · rw [h]
    simp

theorem parsePublicKeys_marshalPublicKeys_witness :
    parsePublicKeys sampleParse (marshalPublicKeys [sampleSigner [1, 2, 3], sampleSigner [9]]) =
      ([⟨[], [1, 2, 3]⟩, ⟨[], [9]⟩], none) :=
  (parsePublicKeys_marshalPublicKeys sampleParse [sampleSigner [1, 2, 3], sampleSigner [9]]
    (by simp [sampleSigner, sampleParse]) (by decide)).1

theorem packed_hugeBlob_length : (packed [hugeBlob]).length = 4294967295 := by
  rw [packed_cons, List.length_append, lengthPrefixed_length, hugeBlob_length]
  rfl

/-- C6, as stated, fails: two well-formed fields whose contents parse, making up a payload
of `2^32 + 4` bytes. After the first length prefix `2^32` bytes are left, `uint32(len(in))`
is zero, and the decoder reports a short read. -/
theorem parsePublicKeys_decode_counterexample :
    [[7], hugeBlob].map sampleParse = [some ⟨[], [7]⟩, some ⟨[], hugeBlob⟩] ∧
      parsePublicKeys sampleParse (packed [[7], hugeBlob]) =
        ([], some Error.failedToUnmarshalPayload) := by
  refine ⟨?_, ?_⟩
  · simp only [List.map_cons, List.map_nil,
      sampleParse_of_length_pos hugeBlob (by rw [hugeBlob_length]; omega),
      sampleParse_of_length_pos [7] (by decide)]
  · rw [parsePublicKeys, packed_cons]
    apply parsePublicKeysLoop_short
    · decide
    · rw [packed_hugeBlob_length]
      decide

/-- C6 (amended): for every payload `p`, `parsePublicKeys(p)` returns either an error with
a nil key list or keys with no error. If it returns keys `k_1..k_n`, then `p` is the
concatenation of `n` length-prefixed fields whose contents parse to `k_1..k_n` in order,
with no bytes left over; for payloads shorter than `2^32` bytes the converse holds as well.
A payload made of fields (each shorter than `2^32` bytes) followed by 1 to 3 trailing
bytes, or by a length prefix announcing more bytes than remain, is a decode failure. -/
theorem parsePublicKeys_decode (ParsePublicKey : Bytes → Option PublicKey) (p : Bytes) :
    ((∃ e, parsePublicKeys ParsePublicKey p = ([], some e)) ∨
      (∃ keys, parsePublicKeys ParsePublicKey p = (keys, none))) ∧
    (∀ keys, parsePublicKeys ParsePublicKey p = (keys, none) →
      ∃ blobs, p = packed blobs ∧ blobs.map ParsePublicKey = keys.map some) ∧
    (p.length < 4294967296 → ∀ keys blobs, p = packed blobs →
      blobs.map ParsePublicKey = keys.map some →
      parsePublicKeys ParsePublicKey p = (keys, none)) ∧
    (∀ blobs t, (∀ b ∈ blobs, b.length < 4294967296) → p = packed blobs ++ t →
      1 ≤ t.length → t.length ≤ 3 → (parsePublicKeys ParsePublicKey p).2 ≠ none) ∧
    (∀ blobs n u, (∀ b ∈ blobs, b.length < 4294967296) → p = packed blobs ++ (bigEndian32 n ++ u) →
      n < 4294967296 → u.length < n → (parsePublicKeys ParsePublicKey p).2 ≠ none) := by
  refine ⟨?_, ?_, ?_, ?_, ?_⟩
  · rcases parsePublicKeysLoop_result ParsePublicKey p.length p [] (Nat.le_refl _) with
      ⟨e, he⟩ | ⟨keys, hk⟩
    · exact Or.inl ⟨e, he⟩
    · exact Or.inr ⟨keys, by rw [parsePublicKeys, hk]; rfl⟩
  · intro keys h
    obtain ⟨blobs, ks, hks, hp, hmap, _⟩ :=
      parsePublicKeysLoop_ok ParsePublicKey p.length p [] keys (Nat.le_refl _) h
    simp only [List.nil_append] at hks
    subst hks
    exact ⟨blobs, hp, hmap⟩
  · intro hlen keys blobs hp hmap
    subst hp
    rw [parsePublicKeys, parsePublicKeysLoop_packed ParsePublicKey blobs [] keys hmap hlen]
    rfl
  · intro blobs t hb hp h1 h3
    subst hp
    exact parsePublicKeysLoop_tail ParsePublicKey t
      (fun k => parsePublicKeysLoop_truncated ParsePublicKey k t h1 h3) blobs [] hb
  · intro blobs n u hb hp hn hu
    subst hp
    exact parsePublicKeysLoop_tail ParsePublicKey (bigEndian32 n ++ u)
      (fun k => parsePublicKeysLoop_overlong ParsePublicKey k n u hn hu) blobs [] hb

/-- A key field followed by two stray bytes is a decode failure, and the two-key payload
decodes to its keys. -/
theorem parsePublicKeys_decode_witness :
    (parsePublicKeys sampleParse [0, 0, 0, 3, 1, 2, 3, 0, 0]).2 ≠ none ∧
      parsePublicKeys sampleParse [0, 0, 0, 3, 1, 2, 3, 0, 0, 0, 1, 9] =
        ([⟨[], [1, 2, 3]⟩, ⟨[], [9]⟩], none) :=
  ⟨(parsePublicKeys_decode sampleParse [0, 0, 0, 3, 1, 2, 3, 0, 0]).2.2.2.1 [[1, 2, 3]] [0, 0]
      (by decide) (by decide) (by decide) (by decide),
    (parsePublicKeys_decode sampleParse [0, 0, 0, 3, 1, 2, 3, 0, 0, 0, 1, 9]).2.2.1 (by decide)
      [⟨[], [1, 2, 3]⟩, ⟨[], [9]⟩] [[1, 2, 3], [9]] (by decide) (by decide)⟩

/-! ## C7, C8: the goroutine of `NoMoreSessions` -/

theorem gateInv_init (reqs : List Request) : GateInv reqs (NoMoreSessions reqs).1 :=
  ⟨[], by simp [NoMoreSessions, GateState.remaining, GateState.emitted, GateState.signals]⟩

theorem gateStep_inv (reqs : List Request) (a : GateAction) (s : GateState)
    (h : GateInv reqs s) : GateInv reqs (gateStep a s) := by
  obtain ⟨consumed, hreq, hem, hsig, hcap, hcl⟩ := h
  obtain ⟨rq, pend, rel, nm, cl, del, nt⟩ := s
  simp only [GateState.remaining, GateState.emitted, GateState.signals] at hreq hem hsig hcap hcl
  cases a with
  | worker =>
    cases pend with
    | some req =>
      by_cases ht : req.Typ = requestTypeNoMoreSessions
      · by_cases hn : nm < 1
        · refine ⟨consumed ++ [req], ?_⟩
          simp only [gateStep, gateWorker, ht, hn, if_true, GateState.remaining,
            GateState.emitted, GateState.signals]
          simp only [Option.toList, List.cons_append, List.nil_append] at hreq hcl
          refine ⟨by simp [hreq], ?_, ?_, by omega, ?_⟩
          · simp [List.filter_append, ht, hem]
          · simp [List.filter_append, ht]
            omega
          · intro hc
            simpa using hcl hc
        · refine ⟨consumed, ?_⟩
          simp only [gateStep, gateWorker, ht, hn, if_true, if_false, GateState.remaining,
            GateState.emitted, GateState.signals]
          exact ⟨hreq, hem, hsig, hcap, hcl⟩
      · by_cases hn : rel.length < chanSize
        · refine ⟨consumed ++ [req], ?_⟩
          simp only [gateStep, gateWorker, ht, hn, if_true, if_false, GateState.remaining,
            GateState.emitted, GateState.signals]
          simp only [Option.toList, List.cons_append, List.nil_append] at hreq hcl
          refine ⟨by simp [hreq], ?_, ?_, hcap, ?_⟩
          · rw [← List.append_assoc, hem]
            simp [List.filter_append, ht]
          · simp [List.filter_append, ht, hsig]
          · intro hc
            simpa using hcl hc
        · refine ⟨consumed, ?_⟩
          simp only [gateStep, gateWorker, ht, hn, if_false, GateState.remaining,
            GateState.emitted, GateState.signals]
          exact ⟨hreq, hem, hsig, hcap, hcl⟩
    | none =>
      cases rq with
      | nil =>
        refine ⟨consumed, ?_⟩
        simp only [gateStep, gateWorker, GateState.remaining, GateState.emitted,
          GateState.signals]
        exact ⟨hreq, hem, hsig, hcap, fun _ => by simp⟩
      | cons req rest =>
        refine ⟨consumed, ?_⟩
        simp only [gateStep, gateWorker, GateState.remaining, GateState.emitted,
          GateState.signals]
        refine ⟨by simpa using hreq, hem, hsig, hcap, ?_⟩
        intro hc
        simpa using hcl hc
  | recvRelayed =>
    cases rel with
    | nil => exact ⟨consumed, hreq, hem, hsig, hcap, hcl⟩
    | cons req rest =>
      refine ⟨consumed, ?_⟩
      simp only [gateStep, GateState.remaining, GateState.emitted, GateState.signals]
      exact ⟨hreq, by simpa using hem, hsig, hcap, hcl⟩
  | recvNoMore =>
    by_cases hn : 0 < nm
    · refine ⟨consumed, ?_⟩
      simp only [gateStep, hn, if_true, GateState.remaining, GateState.emitted,
        GateState.signals]
      exact ⟨hreq, hem, by omega, by omega, hcl⟩
    · refine ⟨consumed, ?_⟩
      simp only [gateStep, hn, if_false, GateState.remaining, GateState.emitted,
        GateState.signals]
      exact ⟨hreq, hem, hsig, hcap, hcl⟩

theorem gateRun_inv (reqs : List Request) (acts : List GateAction) :
    ∀ s, GateInv reqs s → GateInv reqs (gateRun acts s) := by
  induction acts with
  | nil => exact fun s h => h
  | cons a acts ih => exact fun s h => ih _ (gateStep_inv reqs a s h)

theorem gateRun_append (a b : List GateAction) (s : GateState) :
    gateRun (a ++ b) s = gateRun b (gateRun a s) := by
  simp [gateRun, List.foldl_append]

theorem gateDrain_cons (r : Request) (rs : List Request) :
    gateDrain (r :: rs) =
      [GateAction.worker, GateAction.worker, GateAction.recvRelayed, GateAction.recvNoMore] ++
        gateDrain rs := by
  simp [gateDrain]

/-- Under the draining schedule the goroutine works through the whole stream. -/
theorem gateRun_drain (reqs : List Request) :
    ∀ (d : List Request) (k : Nat),
      gateRun (gateDrain reqs)
          { reqs := reqs, pending := none, relayed := [], noMore := 0, closed := false,
            delivered := d, notified := k } =
        { reqs := [], pending := none, relayed := [], noMore := 0, closed := true,
          delivered := d ++ reqs.filter (fun r => r.Typ ≠ requestTypeNoMoreSessions),
          notified := k + (reqs.filter (fun r => r.Typ = requestTypeNoMoreSessions)).length } := by
  induction reqs with
  | nil =>
    intro d k
    simp [gateDrain, gateRun, gateStep, gateWorker]
  | cons r rs ih =>
    intro d k
    rw [gateDrain_cons, gateRun_append]
    by_cases ht : r.Typ = requestTypeNoMoreSessions
    · have h4 : gateRun [GateAction.worker, GateAction.worker, GateAction.recvRelayed,
          GateAction.recvNoMore]
          { reqs := r :: rs, pending := none, relayed := [], noMore := 0, closed := false,
            delivered := d, notified := k } =
          { reqs := rs, pending := none, relayed := [], noMore := 0, closed := false,
            delivered := d, notified := k + 1 } := by
        simp [gateRun, gateStep, gateWorker, ht]
      rw [h4, ih]
      simp [ht, List.filter_cons]
      omega
    · have h4 : gateRun [GateAction.worker, GateAction.worker, GateAction.recvRelayed,
          GateAction.recvNoMore]
          { reqs := r :: rs, pending := none, relayed := [], noMore := 0, closed := false,
            delivered := d, notified := k } =
          { reqs := rs, pending := none, relayed := [], noMore := 0, closed := false,
            delivered := d ++ [r], notified := k } := by
        simp [gateRun, gateStep, gateWorker, ht, chanSize]
      rw [h4, ih]
      simp [ht, List.filter_cons]

/-- What the loop of `NoMoreSessions` guarantees under every interleaving: the filtered
output carries, in order and unchanged, the ordinary requests among those the goroutine is
done with, and never a no-more-sessions request; once the channels are closed it carries
the ordinary requests of the whole stream. -/
theorem gateRun_emitted (reqs : List Request) (acts : List GateAction) :
    (∃ consumed,
      reqs = consumed ++ (gateRun acts (NoMoreSessions reqs).1).remaining ∧
      (gateRun acts (NoMoreSessions reqs).1).emitted =
        consumed.filter (fun r => r.Typ ≠ requestTypeNoMoreSessions)) ∧
    (∀ r ∈ (gateRun acts (NoMoreSessions reqs).1).emitted,
      r.Typ ≠ requestTypeNoMoreSessions) ∧
    ((gateRun acts (NoMoreSessions reqs).1).closed = true →
      (gateRun acts (NoMoreSessions reqs).1).emitted =
        reqs.filter (fun r => r.Typ ≠ requestTypeNoMoreSessions)) := by
  obtain ⟨consumed, h1, h2, _, _, h5⟩ := gateRun_inv reqs acts _ (gateInv_init reqs)
  refine ⟨⟨consumed, h1, h2⟩, ?_, ?_⟩
  · intro r hr
    rw [h2, List.mem_filter] at hr
    simpa using hr.2
  · intro hc
    rw [h5 hc, List.append_nil] at h1
    rw [h2, h1]

theorem repeatedSignalStates_step :
    ∀ s ∈ repeatedSignalStates, ∀ b : Bool,
      gateStep (if b then GateAction.worker else GateAction.recvRelayed) s ∈
        repeatedSignalStates := by
  decide

theorem repeatedSignalStates_run (acts : List Bool) :
    ∀ s ∈ repeatedSignalStates, gateRun (gateOutputOnly acts) s ∈ repeatedSignalStates := by
  induction acts with
  | nil => exact fun s hs => hs
  | cons b bs ih =>
    intro s hs
    simp only [gateOutputOnly, List.map_cons, gateRun, List.foldl_cons]
    exact ih _ (repeatedSignalStates_step s hs b)

/-- C7 (code bug): on the raw stream `no-more-sessions, no-more-sessions, x` the ordinary
request `x` is the subsequence that should come out, but when the application receives from
the filtered output only, under every schedule nothing is ever sent on the filtered output
and the channels are never closed: the goroutine waits at the second `noMore <- struct{}{}`
with `x` unread behind it. -/
theorem NoMoreSessions_relay_stalls (acts : List Bool) :
    repeatedSignalStream.filter (fun r => r.Typ ≠ requestTypeNoMoreSessions) =
        [⟨[1], false, []⟩] ∧
      (gateRun (gateOutputOnly acts) (NoMoreSessions repeatedSignalStream).1).emitted = [] ∧
      (gateRun (gateOutputOnly acts) (NoMoreSessions repeatedSignalStream).1).closed = false ∧
      ⟨[1], false, []⟩ ∈
        (gateRun (gateOutputOnly acts) (NoMoreSessions repeatedSignalStream).1).reqs := by
  have hall : ∀ s ∈ repeatedSignalStates,
      s.emitted = [] ∧ s.closed = false ∧ (⟨[1], false, []⟩ : Request) ∈ s.reqs := by
    decide
  have hinit : (NoMoreSessions repeatedSignalStream).1 ∈ repeatedSignalStates := by
    decide
  exact ⟨by decide, hall _ (repeatedSignalStates_run acts _ hinit)⟩

/-- C8 (code bug): on two no-more-sessions requests the notification is not one-shot. An
application that reads the signal channel receives two notifications. When nobody reads it,
the goroutine has, after receiving both requests, sent one notification and is stuck at the
second `noMore <- struct{}{}`: a further move of the goroutine changes nothing. -/
theorem NoMoreSessions_second_signal :
    (gateRun (gateDrain [⟨requestTypeNoMoreSessions, false, []⟩,
        ⟨requestTypeNoMoreSessions, false, []⟩])
      (NoMoreSessions [⟨requestTypeNoMoreSessions, false, []⟩,
        ⟨requestTypeNoMoreSessions, false, []⟩]).1).notified = 2 ∧
    blockedOnNoMore
      (gateRun [GateAction.worker, GateAction.worker, GateAction.worker]
        (NoMoreSessions [⟨requestTypeNoMoreSessions, false, []⟩,
          ⟨requestTypeNoMoreSessions, false, []⟩]).1) = true ∧
    (gateRun [GateAction.worker, GateAction.worker, GateAction.worker]
        (NoMoreSessions [⟨requestTypeNoMoreSessions, false, []⟩,
          ⟨requestTypeNoMoreSessions, false, []⟩]).1).signals = 1 ∧
    gateWorker
        (gateRun [GateAction.worker, GateAction.worker, GateAction.worker]
          (NoMoreSessions [⟨requestTypeNoMoreSessions, false, []⟩,
            ⟨requestTypeNoMoreSessions, false, []⟩]).1) =
      gateRun [GateAction.worker, GateAction.worker, GateAction.worker]
        (NoMoreSessions [⟨requestTypeNoMoreSessions, false, []⟩,
          ⟨requestTypeNoMoreSessions, false, []⟩]).1 := by
  decide

/-! ## C9, C10: `UpdateHostKeys` and its goroutine -/

theorem answerAll_append {R : Type} (ParsePublicKey : Bytes → Option PublicKey)
    (signers : List (Signer R)) (id : Bytes) (xs ys : List Request) :
    ∀ rand, answerAll ParsePublicKey signers id (xs ++ ys) rand =
      ((answerAll ParsePublicKey signers id xs rand).1 ++
          (answerAll ParsePublicKey signers id ys
            (answerAll ParsePublicKey signers id xs rand).2).1,
        (answerAll ParsePublicKey signers id ys
          (answerAll ParsePublicKey signers id xs rand).2).2) := by
  induction xs with
  | nil => intro rand; simp [answerAll]
  | cons x xs ih => intro rand; simp [answerAll, ih]

theorem rotatorStep_inv {R : Type} (ParsePublicKey : Bytes → Option PublicKey)
    (signers : List (Signer R)) (id : Bytes) (rand : R) (reqs : List Request)
    (a : RotatorAction) (s : RotatorState R)
    (h : RotatorInv ParsePublicKey signers id rand reqs s) :
    RotatorInv ParsePublicKey signers id rand reqs (rotatorStep ParsePublicKey a s) := by
  obtain ⟨hsp, hsg, hid, consumed, hreq, hem, hans, hcl⟩ := h
  obtain ⟨sp, sg, i, rq, pend, rel, cl, del, ans, rd⟩ := s
  simp only [RotatorState.remaining, RotatorState.emitted] at hsp hsg hid hreq hem hans hcl
  subst hsp hsg hid
  cases a with
  | worker =>
    cases pend with
    | some req =>
      simp only [Option.toList, List.cons_append, List.nil_append] at hreq hcl
      by_cases ht : req.Typ = requestTypeHostKeysProve
      · have hstep : rotatorStep ParsePublicKey RotatorAction.worker
            { spawned := true, signers := sg, id := i, reqs := rq, pending := some req,
              relayed := rel, closed := cl, delivered := del, answered := ans, rand := rd } =
            { spawned := true, signers := sg, id := i, reqs := rq, pending := none,
              relayed := rel, closed := cl, delivered := del,
              answered := ans ++ [(req, (proveOwnership ParsePublicKey sg i req rd).1)],
              rand := (proveOwnership ParsePublicKey sg i req rd).2 } := by
          simp [rotatorStep, rotatorWorker, ht]
        rw [hstep]
        refine ⟨rfl, rfl, rfl, consumed ++ [req], ?_⟩
        simp only [RotatorState.remaining, RotatorState.emitted]
        refine ⟨by simp [hreq], ?_, ?_, ?_⟩
        · simp [List.filter_append, ht, hem]
        · simp only [List.filter_append, List.filter_cons, ht, decide_True, if_true,
            List.filter_nil, answerAll_append, ← hans, answerAll, List.append_nil]
        · intro hc
          simpa using hcl hc
      · by_cases hn : rel.length < chanSize
        · have hstep : rotatorStep ParsePublicKey RotatorAction.worker
              { spawned := true, signers := sg, id := i, reqs := rq, pending := some req,
                relayed := rel, closed := cl, delivered := del, answered := ans, rand := rd } =
              { spawned := true, signers := sg, id := i, reqs := rq, pending := none,
                relayed := rel ++ [req], closed := cl, delivered := del, answered := ans,
                rand := rd } := by
            simp [rotatorStep, rotatorWorker, ht, hn]
          rw [hstep]
          refine ⟨rfl, rfl, rfl, consumed ++ [req], ?_⟩
          simp only [RotatorState.remaining, RotatorState.emitted]
          refine ⟨by simp [hreq], ?_, ?_, ?_⟩
          · rw [← List.append_assoc, hem]
            simp [List.filter_append, ht]
          · simp only [List.filter_append, List.filter_cons, ht, decide_False, if_false,
              List.filter_nil, List.append_nil, Bool.false_eq_true]
            exact hans
          · intro hc
            simpa using hcl hc
        · have hstep : rotatorStep ParsePublicKey RotatorAction.worker
              { spawned := true, signers := sg, id := i, reqs := rq, pending := some req,
                relayed := rel, closed := cl, delivered := del, answered := ans, rand := rd } =
              { spawned := true, signers := sg, id := i, reqs := rq, pending := some req,
                relayed := rel, closed := cl, delivered := del, answered := ans, rand := rd } := by
            simp [rotatorStep, rotatorWorker, ht, hn]
          rw [hstep]
          refine ⟨rfl, rfl, rfl, consumed, ?_⟩
          simp only [RotatorState.remaining, RotatorState.emitted]
          exact ⟨by simpa using hreq, hem, hans, by simpa using hcl⟩
    | none =>
      cases rq with
      | nil =>
        refine ⟨rfl, rfl, rfl, consumed, ?_⟩
        simp only [rotatorStep, rotatorWorker, if_true, RotatorState.remaining,
          RotatorState.emitted]
        exact ⟨hreq, hem, hans, fun _ => by simp⟩
      | cons req rest =>
        refine ⟨rfl, rfl, rfl, consumed, ?_⟩
        simp only [rotatorStep, rotatorWorker, if_true, RotatorState.remaining,
          RotatorState.emitted]
        refine ⟨by simpa using hreq, hem, hans, ?_⟩
        intro hc
        simpa using hcl hc
  | recvRelayed =>
    cases rel with
    | nil => exact ⟨rfl, rfl, rfl, consumed, hreq, hem, hans, hcl⟩
    | cons req rest =>
      refine ⟨rfl, rfl, rfl, consumed, ?_⟩
      simp only [rotatorStep, RotatorState.remaining, RotatorState.emitted]
      exact ⟨hreq, by simpa using hem, hans, hcl⟩

theorem rotatorRun_inv {R : Type} (ParsePublicKey : Bytes → Option PublicKey)
    (signers : List (Signer R)) (id : Bytes) (rand : R) (reqs : List Request)
    (acts : List RotatorAction) :
    ∀ s, RotatorInv ParsePublicKey signers id rand reqs s →
      RotatorInv ParsePublicKey signers id rand reqs (rotatorRun ParsePublicKey acts s) := by
  induction acts with
  | nil => exact fun s h => h
  | cons a acts ih => exact fun s h => ih _ (rotatorStep_inv _ _ _ _ _ a s h)

theorem rotatorRun_append {R : Type} (ParsePublicKey : Bytes → Option PublicKey)
    (a b : List RotatorAction) (s : RotatorState R) :
    rotatorRun ParsePublicKey (a ++ b) s =
      rotatorRun ParsePublicKey b (rotatorRun ParsePublicKey a s) := by
  simp [rotatorRun, List.foldl_append]

theorem UpdateHostKeys_sent {R : Type} (conn : ServerConn) (reqs : List Request)
    (signers : List (Signer R)) (rand : R)
    (hsend : conn.SendRequest requestTypeHostKeys false (marshalPublicKeys signers) = none) :
    UpdateHostKeys conn reqs signers rand =
      { stream := Chan.relayed, err := none,
        outbound := [⟨requestTypeHostKeys, false, marshalPublicKeys signers⟩],
        state := { spawned := true, signers := signers, id := conn.SessionID, reqs := reqs,
                   pending := none, relayed := [], closed := false, delivered := [],
                   answered := [], rand := rand } } := by
  simp [UpdateHostKeys, sendHostKeys, hsend]

theorem UpdateHostKeys_failed {R : Type} (conn : ServerConn) (reqs : List Request)
    (signers : List (Signer R)) (rand : R)
    (hsend : conn.SendRequest requestTypeHostKeys false (marshalPublicKeys signers) ≠ none) :
    UpdateHostKeys conn reqs signers rand =
      { stream := Chan.reqs, err := some Error.failedToSendRequest,
        outbound := [⟨requestTypeHostKeys, false, marshalPublicKeys signers⟩],
        state := { spawned := false, signers := signers, id := [], reqs := reqs,
                   pending := none, relayed := [], closed := false, delivered := [],
                   answered := [], rand := rand } } := by
  cases h : conn.SendRequest requestTypeHostKeys false (marshalPublicKeys signers) with
  | none => exact absurd h hsend
  | some e => simp [UpdateHostKeys, sendHostKeys, h]

theorem rotatorInv_init {R : Type} (ParsePublicKey : Bytes → Option PublicKey)
    (conn : ServerConn) (reqs : List Request) (signers : List (Signer R)) (rand : R)
    (hsend : conn.SendRequest requestTypeHostKeys false (marshalPublicKeys signers) = none) :
    RotatorInv ParsePublicKey signers conn.SessionID rand reqs
      (UpdateHostKeys conn reqs signers rand).state := by
  rw [UpdateHostKeys_sent conn reqs signers rand hsend]
  exact ⟨rfl, rfl, rfl, [], by simp [RotatorState.remaining, RotatorState.emitted, answerAll]⟩

theorem rotatorDrain_cons (r : Request) (rs : List Request) :
    rotatorDrain (r :: rs) =
      [RotatorAction.worker, RotatorAction.worker, RotatorAction.recvRelayed] ++
        rotatorDrain rs := by
  simp [rotatorDrain]

/-- Under the draining schedule the goroutine works through the whole stream. -/
theorem rotatorRun_drain {R : Type} (ParsePublicKey : Bytes → Option PublicKey)
    (sg : List (Signer R)) (i : Bytes) (reqs : List Request) :
    ∀ (d : List Request) (ans : List (Request × List Event)) (rd : R),
      rotatorRun ParsePublicKey (rotatorDrain reqs)
          { spawned := true, signers := sg, id := i, reqs := reqs, pending := none,
            relayed := [], closed := false, delivered := d, answered := ans, rand := rd } =
        { spawned := true, signers := sg, id := i, reqs := [], pending := none,
          relayed := [], closed := true,
          delivered := d ++ reqs.filter (fun r => r.Typ ≠ requestTypeHostKeysProve),
          answered := ans ++ (answerAll ParsePublicKey sg i
            (reqs.filter (fun r => r.Typ = requestTypeHostKeysProve)) rd).1,
          rand := (answerAll ParsePublicKey sg i
            (reqs.filter (fun r => r.Typ = requestTypeHostKeysProve)) rd).2 } := by
  induction reqs with
  | nil =>
    intro d ans rd
    simp [rotatorDrain, rotatorRun, rotatorStep, rotatorWorker, answerAll]
  | cons r rs ih =>
    intro d ans rd
    rw [rotatorDrain_cons, rotatorRun_append]
    by_cases ht : r.Typ = requestTypeHostKeysProve
    · have h3 : rotatorRun ParsePublicKey
          [RotatorAction.worker, RotatorAction.worker, RotatorAction.recvRelayed]
          { spawned := true, signers := sg, id := i, reqs := r :: rs, pending := none,
            relayed := [], closed := false, delivered := d, answered := ans, rand := rd } =
          { spawned := true, signers := sg, id := i, reqs := rs, pending := none,
            relayed := [], closed := false, delivered := d,
            answered := ans ++ [(r, (proveOwnership ParsePublicKey sg i r rd).1)],
            rand := (proveOwnership ParsePublicKey sg i r rd).2 } := by
        simp [rotatorRun, rotatorStep, rotatorWorker, ht]
      rw [h3, ih]
      simp [ht, List.filter_cons, answerAll]
    · have h3 : rotatorRun ParsePublicKey
          [RotatorAction.worker, RotatorAction.worker, RotatorAction.recvRelayed]
          { spawned := true, signers := sg, id := i, reqs := r :: rs, pending := none,
            relayed := [], closed := false, delivered := d, answered := ans, rand := rd } =
          { spawned := true, signers := sg, id := i, reqs := rs, pending := none,
            relayed := [], closed := false, delivered := d ++ [r], answered := ans,
            rand := rd } := by
        simp [rotatorRun, rotatorStep, rotatorWorker, ht, chanSize]
      rw [h3, ih]
      simp [ht, List.filter_cons]

/-- C9: after a successful announcement, for every finite raw stream and every interleaving
of the goroutine with the application, what has been sent on the filtered output is the
subsequence, unchanged and in the original order, of the requests the goroutine is done
with whose type differs from `hostkeys-prove-00@openssh.com`; the requests with that type
are each handed to `proveOwnership` with the connection's session ID and the signer list,
in order, and never appear on the filtered output; once the goroutine has closed the
channel both hold of the whole stream, and when the application keeps receiving the
goroutine gets there. -/
theorem UpdateHostKeys_relays {R : Type} (ParsePublicKey : Bytes → Option PublicKey)
    (conn : ServerConn) (reqs : List Request) (signers : List (Signer R)) (rand : R)
    (hsend : conn.SendRequest requestTypeHostKeys false (marshalPublicKeys signers) = none) :
    (∀ acts, ∃ consumed,
      reqs = consumed ++
        (rotatorRun ParsePublicKey acts (UpdateHostKeys conn reqs signers rand).state).remaining ∧
      (rotatorRun ParsePublicKey acts (UpdateHostKeys conn reqs signers rand).state).emitted =
        consumed.filter (fun r => r.Typ ≠ requestTypeHostKeysProve) ∧
      (rotatorRun ParsePublicKey acts (UpdateHostKeys conn reqs signers rand).state).answered =
        (answerAll ParsePublicKey signers conn.SessionID
          (consumed.filter (fun r => r.Typ = requestTypeHostKeysProve)) rand).1) ∧
    (∀ acts, ∀ r ∈
      (rotatorRun ParsePublicKey acts (UpdateHostKeys conn reqs signers rand).state).emitted,
      r.Typ ≠ requestTypeHostKeysProve) ∧
    (∀ acts,
      (rotatorRun ParsePublicKey acts (UpdateHostKeys conn reqs signers rand).state).closed = true →
      (rotatorRun ParsePublicKey acts (UpdateHostKeys conn reqs signers rand).state).emitted =
          reqs.filter (fun r => r.Typ ≠ requestTypeHostKeysProve) ∧
        (rotatorRun ParsePublicKey acts (UpdateHostKeys conn reqs signers rand).state).answered =
          (answerAll ParsePublicKey signers conn.SessionID
            (reqs.filter (fun r => r.Typ = requestTypeHostKeysProve)) rand).1) ∧
    ((rotatorRun ParsePublicKey (rotatorDrain reqs)
        (UpdateHostKeys conn reqs signers rand).state).closed = true ∧
      (rotatorRun ParsePublicKey (rotatorDrain reqs)
        (UpdateHostKeys conn reqs signers rand).state).delivered =
        reqs.filter (fun r => r.Typ ≠ requestTypeHostKeysProve) ∧
      (rotatorRun ParsePublicKey (rotatorDrain reqs)
        (UpdateHostKeys conn reqs signers rand).state).answered =
        (answerAll ParsePublicKey signers conn.SessionID
          (reqs.filter (fun r => r.Typ = requestTypeHostKeysProve)) rand).1) := by
  have hinv := fun acts => rotatorRun_inv ParsePublicKey signers conn.SessionID rand reqs acts _
    (rotatorInv_init ParsePublicKey conn reqs signers rand hsend)
  refine ⟨?_, ?_, ?_, ?_⟩
  · intro acts
    obtain ⟨_, _, _, consumed, h1, h2, h3, _⟩ := hinv acts
    exact ⟨consumed, h1, h2, (congrArg Prod.fst h3 : _)⟩
  · intro acts r hr
    obtain ⟨_, _, _, consumed, _, h2, _, _⟩ := hinv acts
    rw [h2, List.mem_filter] at hr
    simpa using hr.2
  · intro acts hc
    obtain ⟨_, _, _, consumed, h1, h2, h3, h4⟩ := hinv acts
    rw [h4 hc, List.append_nil] at h1
    subst h1
    exact ⟨h2, (congrArg Prod.fst h3 : _)⟩
  · rw [UpdateHostKeys_sent conn reqs signers rand hsend]
    simp only [rotatorRun_drain]
    simp

/-- The stream `x, prove request, y` is relayed as `x, y`. -/
theorem UpdateHostKeys_relays_witness :
    (rotatorRun sampleParse
      (rotatorDrain [⟨[1], false, []⟩, ⟨requestTypeHostKeysProve, true, [0, 0, 0, 1, 9]⟩,
        ⟨[2], true, [5]⟩])
      (UpdateHostKeys sampleConn
        [⟨[1], false, []⟩, ⟨requestTypeHostKeysProve, true, [0, 0, 0, 1, 9]⟩, ⟨[2], true, [5]⟩]
        [sampleSigner [1, 2, 3]] 0).state).delivered =
      [⟨[1], false, []⟩, ⟨[2], true, [5]⟩] := by
  rw [(UpdateHostKeys_relays sampleParse sampleConn
    [⟨[1], false, []⟩, ⟨requestTypeHostKeysProve, true, [0, 0, 0, 1, 9]⟩, ⟨[2], true, [5]⟩]
    [sampleSigner [1, 2, 3]] 0 rfl).2.2.2.2.1]
  decide

theorem rotatorRun_unspawned {R : Type} (ParsePublicKey : Bytes → Option PublicKey)
    (acts : List RotatorAction) (s : RotatorState R) (h1 : s.spawned = false)
    (h2 : s.relayed = []) : rotatorRun ParsePublicKey acts s = s := by
  induction acts with
  | nil => rfl
  | cons a acts ih =>
    have hstep : rotatorStep ParsePublicKey a s = s := by
      cases a with
      | worker => simp [rotatorStep, rotatorWorker, h1]
      | recvRelayed => simp [rotatorStep, h2]
    simp only [rotatorRun, List.foldl_cons, hstep] at ih ⊢
    exact ih

/-- C10: when `conn.SendRequest` fails on the announcement, `UpdateHostKeys` returns a
non-nil error and the channel `reqs` it was given, and no goroutine runs: whatever is
scheduled, the raw stream is left unread, nothing is relayed and no prove-ownership request
is answered. When the send succeeds it returns a `nil` error and the new channel
`relayed`, empty, fed by the goroutine started on the raw stream. -/
theorem UpdateHostKeys_send {R : Type} (ParsePublicKey : Bytes → Option PublicKey)
    (conn : ServerConn) (reqs : List Request) (signers : List (Signer R)) (rand : R) :
    (conn.SendRequest requestTypeHostKeys false (marshalPublicKeys signers) ≠ none →
      (UpdateHostKeys conn reqs signers rand).err ≠ none ∧
      (UpdateHostKeys conn reqs signers rand).stream = Chan.reqs ∧
      (UpdateHostKeys conn reqs signers rand).state.spawned = false ∧
      ∀ acts,
        (rotatorRun ParsePublicKey acts (UpdateHostKeys conn reqs signers rand).state).reqs = reqs ∧
        (rotatorRun ParsePublicKey acts (UpdateHostKeys conn reqs signers rand).state).pending = none ∧
        (rotatorRun ParsePublicKey acts (UpdateHostKeys conn reqs signers rand).state).emitted = [] ∧
        (rotatorRun ParsePublicKey acts (UpdateHostKeys conn reqs signers rand).state).answered = []) ∧
    (conn.SendRequest requestTypeHostKeys false (marshalPublicKeys signers) = none →
      (UpdateHostKeys conn reqs signers rand).err = none ∧
      (UpdateHostKeys conn reqs signers rand).stream = Chan.relayed ∧
      (UpdateHostKeys conn reqs signers rand).state.spawned = true ∧
      (UpdateHostKeys conn reqs signers rand).state.reqs = reqs ∧
      (UpdateHostKeys conn reqs signers rand).state.emitted = [] ∧
      (UpdateHostKeys conn reqs signers rand).state.closed = false) := by
  refine ⟨?_, ?_⟩
  · intro hsend
    rw [UpdateHostKeys_failed conn reqs signers rand hsend]
    refine ⟨by simp, rfl, rfl, ?_⟩
    intro acts
    rw [rotatorRun_unspawned ParsePublicKey acts _ rfl rfl]
    exact ⟨rfl, rfl, rfl, rfl⟩
  · intro hsend
    rw [UpdateHostKeys_sent conn reqs signers rand hsend]
    exact ⟨rfl, rfl, rfl, rfl, rfl, rfl⟩

/-- On a connection whose send fails the raw stream comes back and stays unread. -/
theorem UpdateHostKeys_send_witness :
    (UpdateHostKeys sampleBrokenConn [⟨requestTypeHostKeysProve, true, [0, 0, 0, 1, 9]⟩]
        [sampleSigner [9]] 0).err ≠ none ∧
      (UpdateHostKeys sampleBrokenConn [⟨requestTypeHostKeysProve, true, [0, 0, 0, 1, 9]⟩]
        [sampleSigner [9]] 0).stream = Chan.reqs ∧
      (rotatorRun sampleParse [RotatorAction.worker, RotatorAction.worker]
        (UpdateHostKeys sampleBrokenConn [⟨requestTypeHostKeysProve, true, [0, 0, 0, 1, 9]⟩]
          [sampleSigner [9]] 0).state).answered = [] ∧
      (UpdateHostKeys sampleConn [⟨requestTypeHostKeysProve, true, [0, 0, 0, 1, 9]⟩]
        [sampleSigner [9]] 0).stream = Chan.relayed :=
  have hfail := (UpdateHostKeys_send sampleParse sampleBrokenConn
    [⟨requestTypeHostKeysProve, true, [0, 0, 0, 1, 9]⟩] [sampleSigner [9]] 0).1
    (by simp [sampleBrokenConn])
  have hok := (UpdateHostKeys_send sampleParse sampleConn
    [⟨requestTypeHostKeysProve, true, [0, 0, 0, 1, 9]⟩] [sampleSigner [9]] 0).2 rfl
  ⟨hfail.1, hfail.2.1, (hfail.2.2.2 [RotatorAction.worker, RotatorAction.worker]).2.2.2,
    hok.2.1⟩

/-! ## C11: the announcement -/

theorem UpdateHostKeys_outbound {R : Type} (conn : ServerConn) (reqs : List Request)
    (signers : List (Signer R)) (rand : R) :
    (UpdateHostKeys conn reqs signers rand).outbound =
        [⟨requestTypeHostKeys, false, marshalPublicKeys signers⟩] ∧
      (UpdateHostKeys conn reqs signers rand).state.reqs = reqs ∧
      (UpdateHostKeys conn reqs signers rand).state.pending = none := by
  cases h : conn.SendRequest requestTypeHostKeys false (marshalPublicKeys signers) with
  | none => rw [UpdateHostKeys_sent conn reqs signers rand h]; exact ⟨rfl, rfl, rfl⟩
  | some e =>
    rw [UpdateHostKeys_failed conn reqs signers rand (by rw [h]; simp)]
    exact ⟨rfl, rfl, rfl⟩

/-- C11, as stated, fails on the type tag: the request that `UpdateHostKeys` sends is named
`hostkeys-00@openssh.com`, which is not the string `hostkeys-00`. -/
theorem UpdateHostKeys_announces_counterexample :
    (UpdateHostKeys sampleConn [] [sampleSigner [9]] 0).outbound =
        [⟨asciiBytes "hostkeys-00@openssh.com", false, [0, 0, 0, 1, 9]⟩] ∧
      asciiBytes "hostkeys-00@openssh.com" ≠ asciiBytes "hostkeys-00" := by
  refine ⟨?_, by decide⟩
  rw [(UpdateHostKeys_outbound sampleConn [] [sampleSigner [9]] 0).1]
  decide

/-- C11 (amended): on construction `UpdateHostKeys` calls `conn.SendRequest` exactly once,
whether the call succeeds or fails, with type tag `hostkeys-00@openssh.com`, want-reply
`false`, and as payload the packed public keys of the signers in the order they were
supplied; when it returns, no request has been read from the raw stream. -/
theorem UpdateHostKeys_announces {R : Type} (conn : ServerConn) (reqs : List Request)
    (signers : List (Signer R)) (rand : R) :
    (UpdateHostKeys conn reqs signers rand).outbound =
        [⟨asciiBytes "hostkeys-00@openssh.com", false,
          packed (signers.map (fun s => s.PublicKey.Marshal))⟩] ∧
      (sendHostKeys conn signers).2 = (UpdateHostKeys conn reqs signers rand).outbound ∧
      (UpdateHostKeys conn reqs signers rand).state.reqs = reqs ∧
      (UpdateHostKeys conn reqs signers rand).state.pending = none ∧
      (UpdateHostKeys conn reqs signers rand).state.answered = [] := by
  have h := UpdateHostKeys_outbound conn reqs signers rand
  refine ⟨?_, ?_, h.2.1, h.2.2, ?_⟩
  · rw [h.1, marshalPublicKeys_eq_packed]
    rfl
  · rw [h.1]
    simp only [sendHostKeys]
    split <;> rfl
  · simp only [UpdateHostKeys]
    split <;> rfl

/-! ## C12: `findKnown` -/

/-- C12: for every signer list and public key, `findKnown` returns a signer whose public-key
wire encoding equals the key's, namely the first such signer in list order, and returns
nothing if and only if no signer in the list has an equal encoding. -/
theorem findKnown_first {R : Type} (signers : List (Signer R)) (key : PublicKey) :
    (∀ s, findKnown signers key = some s →
      s.PublicKey.Marshal = key.Marshal ∧
      ∃ before after, signers = before ++ s :: after ∧
        ∀ t ∈ before, t.PublicKey.Marshal ≠ key.Marshal) ∧
    (findKnown signers key = none ↔ ∀ s ∈ signers, s.PublicKey.Marshal ≠ key.Marshal) := by
  induction signers with
  | nil => simp [findKnown]
  | cons x xs ih =>
    by_cases hx : x.PublicKey.Marshal = key.Marshal
    · refine ⟨?_, ?_⟩
      · intro s hs
        simp only [findKnown, hx, if_true, Option.some.injEq] at hs
        subst hs
        exact ⟨hx, [], xs, rfl, by simp⟩
      · simp [findKnown, hx]
    · refine ⟨?_, ?_⟩
      · intro s hs
        simp only [findKnown, hx, if_false] at hs
        obtain ⟨hm, before, after, hsplit, hbefore⟩ := ih.1 s hs
        refine ⟨hm, x :: before, after, by simp [hsplit], ?_⟩
        intro t ht
        rcases List.mem_cons.mp ht with rfl | ht
        · exact hx
        · exact hbefore t ht
      · simp only [findKnown, hx, if_false, List.mem_cons, forall_eq_or_imp, ne_eq,
          not_false_eq_true, true_and]
        exact ih.2

/-- Of two signers with the same key encoding the first is returned; an unlisted key
finds none. -/
theorem findKnown_first_witness :
    (findKnown [sampleSigner [1], sampleFailingSigner [2], sampleSigner [2]]
        ⟨[], [2]⟩).map (fun s => (s.Sign 0 [1]).1) = some none ∧
      (findKnown [sampleSigner [1], sampleSigner [2]] ⟨[], [3]⟩).isNone = true := by
  refine ⟨by simp [findKnown, sampleSigner, sampleFailingSigner], ?_⟩
  rw [Option.isNone_iff_eq_none]
  exact (findKnown_first [sampleSigner [1], sampleSigner [2]] ⟨[], [3]⟩).2.mpr
    (by simp [sampleSigner])

/-! ## C13: the packed signatures -/

/-- C13: for all signature lists, `marshalSignatures` is the concatenation, in list order
and with no separator, of one length-prefixed field per signature, holding that signature's
wire encoding (length-prefixed format name, length-prefixed blob, then the raw rest bytes);
it distributes over list concatenation, and it is the packing of `marshalPublicKeys`. -/
theorem marshalSignatures_concat (signatures a b : List Signature) :
    marshalSignatures signatures =
      (signatures.map (fun s =>
        bigEndian32 (MarshalSignature s).length ++ MarshalSignature s)).flatten ∧
    (∀ s : Signature, MarshalSignature s =
      (bigEndian32 s.Format.length ++ s.Format) ++ (bigEndian32 s.Blob.length ++ s.Blob) ++
        s.Rest) ∧
    marshalSignatures (a ++ b) = marshalSignatures a ++ marshalSignatures b ∧
    marshalSignatures [] = [] ∧
    (∀ (R : Type) (signers : List (Signer R)),
      marshalSignatures signatures = packed (signatures.map MarshalSignature) ∧
      marshalPublicKeys signers = packed (signers.map (fun s => s.PublicKey.Marshal))) := by
  refine ⟨?_, ?_, ?_, rfl, ?_⟩
  · rw [marshalSignatures_eq_packed]
    simp only [packed, List.map_map]
    rfl
  · intro s
    simp only [MarshalSignature, marshalStringField_eq_lengthPrefixed, lengthPrefixed]
  · simp only [marshalSignatures_eq_packed, List.map_append, packed_append]
  · intro R signers
    exact ⟨marshalSignatures_eq_packed _, marshalPublicKeys_eq_packed _⟩

/-! ## C14, C17: what the framing determines -/

theorem bigEndian32_inj {m n : Nat} (hm : m < 4294967296) (hn : n < 4294967296)
    (h : bigEndian32 m = bigEndian32 n) : m = n := by
  obtain ⟨a0, a1, a2, a3, ha, hva⟩ := uint32BE_bigEndian32 m
  obtain ⟨b0, b1, b2, b3, hb, hvb⟩ := uint32BE_bigEndian32 n
  rw [ha, hb] at h
  simp only [List.cons.injEq, and_true] at h
  obtain ⟨h0, h1, h2, h3⟩ := h
  subst h0 h1 h2 h3
  rw [Nat.mod_eq_of_lt hm] at hva
  rw [Nat.mod_eq_of_lt hn] at hvb
  omega

theorem bigEndian32_length (n : Nat) : (bigEndian32 n).length = 4 := rfl

/-- A field shorter than `2^32` bytes can be read back off the front of a byte string. -/
theorem lengthPrefixed_append_inj {a b x y : Bytes} (ha : a.length < 4294967296)
    (hb : b.length < 4294967296) (h : lengthPrefixed a ++ x = lengthPrefixed b ++ y) :
    a = b ∧ x = y := by
  simp only [lengthPrefixed, List.append_assoc] at h
  obtain ⟨h1, h2⟩ := List.append_inj h (by simp [bigEndian32_length])
  have hlen := bigEndian32_inj ha hb h1
  exact List.append_inj h2 hlen

theorem MarshalSignature_length (s : Signature) :
    (MarshalSignature s).length = s.Format.length + s.Blob.length + s.Rest.length + 8 := by
  simp only [MarshalSignature, marshalStringField_eq_lengthPrefixed, List.length_append,
    lengthPrefixed_length]
  omega

theorem MarshalSignature_inj {s t : Signature} (hs : (MarshalSignature s).length < 4294967296)
    (ht : (MarshalSignature t).length < 4294967296)
    (h : MarshalSignature s = MarshalSignature t) : s = t := by
  rw [MarshalSignature_length] at hs ht
  simp only [MarshalSignature, marshalStringField_eq_lengthPrefixed, List.append_assoc] at h
  obtain ⟨hF, h1⟩ := lengthPrefixed_append_inj (by omega) (by omega) h
  obtain ⟨hB, hR⟩ := lengthPrefixed_append_inj (by omega) (by omega) h1
  cases s
  cases t
  simp only at hF hB hR
  subst hF hB hR
  rfl

theorem lengthPrefixed_ne_nil (b : Bytes) (rest : Bytes) : lengthPrefixed b ++ rest ≠ [] := by
  simp [lengthPrefixed, bigEndian32]

theorem marshalSignatures_inj_aux (a : List Signature) :
    ∀ b : List Signature, (∀ s ∈ a, (MarshalSignature s).length < 4294967296) →
      (∀ s ∈ b, (MarshalSignature s).length < 4294967296) →
      packed (a.map MarshalSignature) = packed (b.map MarshalSignature) → a = b := by
  induction a with
  | nil =>
    intro b _ _ h
    cases b with
    | nil => rfl
    | cons t ts =>
      simp only [List.map_nil, List.map_cons, packed_cons] at h
      exact absurd h.symm (lengthPrefixed_ne_nil _ _)
  | cons s ss ih =>
    intro b ha hb h
    cases b with
    | nil =>
      simp only [List.map_nil, List.map_cons, packed_cons] at h
      exact absurd h (lengthPrefixed_ne_nil _ _)
    | cons t ts =>
      simp only [List.map_cons, packed_cons] at h
      have hs := ha s (List.mem_cons_self _ _)
      have ht := hb t (List.mem_cons_self _ _)
      obtain ⟨h1, h2⟩ := lengthPrefixed_append_inj hs ht h
      have hst := MarshalSignature_inj hs ht h1
      have hrest := ih ts (fun x hx => ha x (List.mem_cons_of_mem _ hx))
        (fun x hx => hb x (List.mem_cons_of_mem _ hx)) h2
      rw [hst, hrest]

theorem MarshalSignature_wrap (g : Bytes) (hg : g.length = 4294967291) :
    MarshalSignature ⟨0 :: 0 :: 0 :: 0 :: 0 :: g, [], []⟩ =
      MarshalSignature ⟨[], [], 0 :: (g ++ [0, 0, 0, 0])⟩ := by
  have hlen : (0 :: 0 :: 0 :: 0 :: 0 :: g : Bytes).length = 4294967296 := by
    simp only [List.length_cons, hg]
  have hb : bigEndian32 4294967296 = [0, 0, 0, 0] := by decide
  have h0 : bigEndian32 0 = [0, 0, 0, 0] := by decide
  simp only [MarshalSignature, marshalStringField_eq_lengthPrefixed, lengthPrefixed,
    hlen, hb, List.length_nil, h0, List.append_nil, List.cons_append, List.nil_append,
    List.append_assoc]

theorem longSignatures_marshal :
    MarshalSignature longFormatSignature = MarshalSignature longRestSignature :=
  MarshalSignature_wrap hugeBlob hugeBlob_length

/-- C14, as stated, fails: two different signatures, one with a format name of `2^32` bytes,
are packed to the same payload, so no decoder can give back the original from it. The
package itself has no decoder for packed signatures. -/
theorem marshalSignatures_roundtrip_counterexample :
    marshalSignatures [longFormatSignature] = marshalSignatures [longRestSignature] ∧
      longFormatSignature ≠ longRestSignature := by
  refine ⟨?_, ?_⟩
  · simp only [marshalSignatures_eq_packed, List.map_cons, List.map_nil, longSignatures_marshal]
  · intro h
    have hf := congrArg Signature.Format h
    simp [longFormatSignature, longRestSignature] at hf

/-- C14 (amended): on lists of signatures whose wire encodings are each shorter than `2^32`
bytes, `marshalSignatures` is injective: the packed payload determines the signatures and
their order. -/
theorem marshalSignatures_injective (a b : List Signature)
    (ha : ∀ s ∈ a, (MarshalSignature s).length < 4294967296)
    (hb : ∀ s ∈ b, (MarshalSignature s).length < 4294967296)
    (h : marshalSignatures a = marshalSignatures b) : a = b := by
  rw [marshalSignatures_eq_packed, marshalSignatures_eq_packed] at h
  exact marshalSignatures_inj_aux a b ha hb h

/-- Swapping two signatures changes the payload. -/
theorem marshalSignatures_injective_witness :
    marshalSignatures [⟨[7], [1], []⟩, ⟨[7], [2], []⟩] ≠
      marshalSignatures [⟨[7], [2], []⟩, ⟨[7], [1], []⟩] :=
  fun h => absurd
    (marshalSignatures_injective [⟨[7], [1], []⟩, ⟨[7], [2], []⟩]
      [⟨[7], [2], []⟩, ⟨[7], [1], []⟩] (by decide) (by decide) h)
    (by decide)

/-- C17: the message built by `signHostKey` determines the session ID and the key encoding:
for session IDs and key encodings shorter than `2^32` bytes, equal messages come from equal
session IDs and equal key encodings. -/
theorem signHostKeyData_injective (k1 k2 : PublicKey) (s1 s2 : Bytes)
    (hs1 : s1.length < 4294967296) (hs2 : s2.length < 4294967296)
    (hk1 : k1.Marshal.length < 4294967296) (hk2 : k2.Marshal.length < 4294967296)
    (h : signHostKeyData k1 s1 = signHostKeyData k2 s2) :
    s1 = s2 ∧ k1.Marshal = k2.Marshal := by
  simp only [signHostKeyData, MarshalHostKeysProveMsg, marshalStringField_eq_lengthPrefixed,
    List.append_assoc] at h
  have h1 := List.append_cancel_left h
  obtain ⟨hs, h2⟩ := lengthPrefixed_append_inj hs1 hs2 h1
  have h3 : lengthPrefixed k1.Marshal ++ [] = lengthPrefixed k2.Marshal ++ [] := by
    simpa using h2
  exact ⟨hs, (lengthPrefixed_append_inj hk1 hk2 h3).1⟩

/-- The messages for one key under two session IDs differ. -/
theorem signHostKeyData_injective_witness :
    signHostKeyData ⟨[], [1, 2, 3]⟩ [5] ≠ signHostKeyData ⟨[], [1, 2, 3]⟩ [6] :=
  fun h => absurd
    (signHostKeyData_injective ⟨[], [1, 2, 3]⟩ ⟨[], [1, 2, 3]⟩ [5] [6] (by decide) (by decide)
      (by decide) (by decide) h).1
    (by decide)

/-! ## C15, C16, C18: what `proveOwnership` calls -/

/-- The loop signs along the key list and no further than an unknown key. -/
theorem proveOwnershipLoop_signCalls {R : Type} (signers : List (Signer R)) (sessionID : Bytes)
    (before : List PublicKey) :
    ∀ (key : PublicKey) (after : List PublicKey) (acc : List Signature) (rand : R),
      findKnown signers key = none →
      (signCalls (proveOwnershipLoop signers sessionID (before ++ key :: after) acc rand).1).map
          Prod.snd <+: before.map (fun k => signHostKeyData k sessionID) := by
  induction before with
  | nil =>
    intro key after acc rand hk
    simp [proveOwnershipLoop, hk, signCalls]
  | cons x xs ih =>
    intro key after acc rand hk
    simp only [List.cons_append, proveOwnershipLoop]
    cases hx : findKnown signers x with
    | none => simp [signCalls]
    | some known =>
      simp only
      rcases hsig : signHostKey known x sessionID rand with ⟨_ | sig, rand1⟩
      · simp only [signCalls, List.map_cons, List.map_nil]
        exact ⟨xs.map (fun k => signHostKeyData k sessionID), rfl⟩
      · simp only [signCalls, List.map_cons]
        obtain ⟨t, ht⟩ := ih key after (acc ++ [sig]) rand1 hk
        exact ⟨t, congrArg (List.cons (signHostKeyData x sessionID)) ht⟩

/-- C15: when the payload of a challenge fails to decode, `proveOwnership` makes no call of
`Sign` at all; when it decodes and holds an unknown key, `Sign` is called only for keys
standing before that key, in order, each on its canonical message, and the answer is
`(false, nil)`. -/
theorem proveOwnership_signs {R : Type} (ParsePublicKey : Bytes → Option PublicKey)
    (signers : List (Signer R)) (sessionID : Bytes) (req : Request) (rand : R) :
    ((parsePublicKeys ParsePublicKey req.Payload).2 ≠ none →
      signCalls (proveOwnership ParsePublicKey signers sessionID req rand).1 = []) ∧
    (∀ before key after,
      parsePublicKeys ParsePublicKey req.Payload = (before ++ key :: after, none) →
      findKnown signers key = none →
      (signCalls (proveOwnership ParsePublicKey signers sessionID req rand).1).map Prod.snd <+:
          before.map (fun k => signHostKeyData k sessionID) ∧
        replies (proveOwnership ParsePublicKey signers sessionID req rand).1 = [(false, [])]) := by
  refine ⟨?_, ?_⟩
  · intro h
    unfold proveOwnership
    rcases hp : parsePublicKeys ParsePublicKey req.Payload with ⟨keys, _ | err⟩
    · rw [hp] at h
      simp at h
    · simp [signCalls]
  · intro before key after hp hk
    simp only [proveOwnership, hp]
    exact ⟨proveOwnershipLoop_signCalls signers sessionID before key after [] rand hk,
      proveOwnershipLoop_unknown signers sessionID _ [] rand
        ⟨key, by simp, hk⟩⟩

theorem parsePublicKeys_sample_truncated :
    (parsePublicKeys sampleParse [0, 0, 0, 3, 1, 2, 3, 0, 0]).2 ≠ none := by
  have h : ([0, 0, 0, 3, 1, 2, 3, 0, 0] : Bytes) = packed [[1, 2, 3]] ++ [0, 0] := by decide
  rw [parsePublicKeys, h]
  exact parsePublicKeysLoop_tail sampleParse [0, 0]
    (fun k => parsePublicKeysLoop_truncated sampleParse k [0, 0] (by decide) (by decide))
    [[1, 2, 3]] [] (by decide)

/-- A known key followed by a truncated length prefix: nothing is signed. A known key
followed by an unknown key: only the known key is signed. -/
theorem proveOwnership_signs_witness :
    signCalls (proveOwnership sampleParse [sampleSigner [1, 2, 3]] [5]
        ⟨requestTypeHostKeysProve, true, [0, 0, 0, 3, 1, 2, 3, 0, 0]⟩ 0).1 = [] ∧
      (signCalls (proveOwnership sampleParse [sampleSigner [1, 2, 3]] [5]
        ⟨requestTypeHostKeysProve, true, [0, 0, 0, 3, 1, 2, 3, 0, 0, 0, 1, 9]⟩ 0).1).map
          Prod.snd <+: [signHostKeyData ⟨[], [1, 2, 3]⟩ [5]] :=
  ⟨(proveOwnership_signs sampleParse [sampleSigner [1, 2, 3]] [5]
      ⟨requestTypeHostKeysProve, true, [0, 0, 0, 3, 1, 2, 3, 0, 0]⟩ 0).1
      parsePublicKeys_sample_truncated,
    ((proveOwnership_signs sampleParse [sampleSigner [1, 2, 3]] [5]
      ⟨requestTypeHostKeysProve, true, [0, 0, 0, 3, 1, 2, 3, 0, 0, 0, 1, 9]⟩ 0).2
      [⟨[], [1, 2, 3]⟩] ⟨[], [9]⟩ [] parsePublicKeys_sample_two
      (by simp [findKnown, sampleSigner])).1⟩

theorem proveOwnershipLoop_replies {R : Type} (signers : List (Signer R)) (sessionID : Bytes)
    (keys : List PublicKey) :
    ∀ (acc : List Signature) (rand : R),
      ∃ ok payload,
        replies (proveOwnershipLoop signers sessionID keys acc rand).1 = [(ok, payload)] ∧
        (proveOwnershipLoop signers sessionID keys acc rand).1.getLast? =
          some (Event.reply ok payload) ∧
        (ok = false → payload = []) := by
  induction keys with
  | nil =>
    intro acc rand
    exact ⟨true, marshalSignatures acc, by simp [proveOwnershipLoop, replies]⟩
  | cons k ks ih =>
    intro acc rand
    simp only [proveOwnershipLoop]
    cases hk : findKnown signers k with
    | none => exact ⟨false, [], by simp [replies]⟩
    | some known =>
      simp only
      rcases hsig : signHostKey known k sessionID rand with ⟨_ | sig, rand1⟩
      · exact ⟨false, [], by simp [replies]⟩
      · obtain ⟨ok, payload, h1, h2, h3⟩ := ih (acc ++ [sig]) rand1
        refine ⟨ok, payload, by simpa [replies] using h1, ?_, h3⟩
        simp only
        rw [List.getLast?_cons, h2]
        rfl

/-- Along a decoded key list either every key is matched and signed, or some key is
unknown, or signing fails for some key. -/
theorem signsAll_or_fails {R : Type} (signers : List (Signer R)) (sessionID : Bytes)
    (keys : List PublicKey) :
    ∀ rand : R,
      (∃ sigs rand1, SignsAll signers sessionID keys rand sigs rand1) ∨
      (∃ key ∈ keys, findKnown signers key = none) ∨
      SignFails signers sessionID keys rand := by
  induction keys with
  | nil => exact fun rand => Or.inl ⟨[], rand, SignsAll.nil rand⟩
  | cons k ks ih =>
    intro rand
    cases hk : findKnown signers k with
    | none => exact Or.inr (Or.inl ⟨k, List.mem_cons_self _ _, hk⟩)
    | some known =>
      rcases hs : known.Sign rand (signHostKeyData k sessionID) with ⟨_ | sig, rand1⟩
      · exact Or.inr (Or.inr (SignFails.here hk (by rw [hs])))
      · rcases ih rand1 with ⟨sigs, rand2, h⟩ | ⟨key, hmem, hnone⟩ | h
        · exact Or.inl ⟨sig :: sigs, rand2, SignsAll.cons hk hs h⟩
        · exact Or.inr (Or.inl ⟨key, List.mem_cons_of_mem _ hmem, hnone⟩)
        · exact Or.inr (Or.inr (SignFails.later hk hs h))

/-- C16: for every signer list, session ID, challenge and state of the random source,
`proveOwnership` returns after exactly one call of `req.Reply`, which is the last thing it
does, on every path. The reply is negative exactly when an error condition holds (the
payload fails to decode, a decoded key is unknown, or signing fails for a key), and then it
carries no payload; otherwise it is positive and carries the packed signatures.
`proveOwnership` has no error result. -/
theorem proveOwnership_replies_once {R : Type} (ParsePublicKey : Bytes → Option PublicKey)
    (signers : List (Signer R)) (sessionID : Bytes) (req : Request) (rand : R) :
    ∃ ok payload,
      replies (proveOwnership ParsePublicKey signers sessionID req rand).1 = [(ok, payload)] ∧
      (proveOwnership ParsePublicKey signers sessionID req rand).1.getLast? =
        some (Event.reply ok payload) ∧
      (ok = false ↔
        ((parsePublicKeys ParsePublicKey req.Payload).2 ≠ none ∨
          (∃ key ∈ (parsePublicKeys ParsePublicKey req.Payload).1,
            findKnown signers key = none) ∨
          SignFails signers sessionID (parsePublicKeys ParsePublicKey req.Payload).1 rand)) ∧
      (ok = false → payload = []) ∧
      (ok = true → ∃ sigs rand1,
        SignsAll signers sessionID (parsePublicKeys ParsePublicKey req.Payload).1 rand sigs
          rand1 ∧
        payload = marshalSignatures sigs) := by
  unfold proveOwnership
  rcases hp : parsePublicKeys ParsePublicKey req.Payload with ⟨keys, _ | err⟩
  · obtain ⟨ok, payload, h1, h2, h3⟩ := proveOwnershipLoop_replies signers sessionID keys [] rand
    have hbad : ((∃ key ∈ keys, findKnown signers key = none) ∨
        SignFails signers sessionID keys rand) → ok = false := by
      intro hb
      have hr : replies (proveOwnershipLoop signers sessionID keys [] rand).1 = [(false, [])] := by
        rcases hb with hb | hb
        · exact proveOwnershipLoop_unknown _ _ _ _ _ hb
        · exact proveOwnershipLoop_signFails hb _
      rw [hr] at h1
      simp only [List.cons.injEq, Prod.mk.injEq, and_true] at h1
      exact h1.1.symm
    have hgood : ∀ sigs rand1, SignsAll signers sessionID keys rand sigs rand1 →
        ok = true ∧ payload = marshalSignatures sigs := by
      intro sigs rand1 hsa
      have hr := (proveOwnershipLoop_signsAll hsa []).1
      rw [hr] at h1
      simp only [List.nil_append, List.cons.injEq, Prod.mk.injEq, and_true] at h1
      exact ⟨h1.1.symm, h1.2.symm⟩
    refine ⟨ok, payload, h1, h2, ?_, h3, ?_⟩
    · constructor
      · intro hok
        rcases signsAll_or_fails signers sessionID keys rand with ⟨sigs, rand1, hsa⟩ | hb | hb
        · have := (hgood sigs rand1 hsa).1
          rw [hok] at this
          cases this
        · exact Or.inr (Or.inl hb)
        · exact Or.inr (Or.inr hb)
      · rintro (hn | hb | hb)
        · simp at hn
        · exact hbad (Or.inl hb)
        · exact hbad (Or.inr hb)
    · intro hok
      rcases signsAll_or_fails signers sessionID keys rand with ⟨sigs, rand1, hsa⟩ | hb | hb
      · exact ⟨sigs, rand1, hsa, (hgood sigs rand1 hsa).2⟩
      · have := hbad (Or.inl hb)
        rw [hok] at this
        cases this
      · have := hbad (Or.inr hb)
        rw [hok] at this
        cases this
  · refine ⟨false, [], by simp [replies], by simp, ?_, fun _ => rfl, ?_⟩
    · exact ⟨fun _ => Or.inl (by simp), fun _ => rfl⟩
    · intro h
      cases h

/-- A challenge for a key whose signer fails gets the one reply `(false, nil)`. -/
theorem proveOwnership_replies_once_witness :
    replies (proveOwnership sampleParse [sampleFailingSigner [1, 2, 3]] [5]
      ⟨requestTypeHostKeysProve, true, [0, 0, 0, 3, 1, 2, 3]⟩ 0).1 = [(false, [])] := by
  obtain ⟨ok, payload, h1, _, hiff, hnil, _⟩ :=
    proveOwnership_replies_once sampleParse [sampleFailingSigner [1, 2, 3]] [5]
      ⟨requestTypeHostKeysProve, true, [0, 0, 0, 3, 1, 2, 3]⟩ 0
  have hf : SignFails [sampleFailingSigner [1, 2, 3]] [5]
      (parsePublicKeys sampleParse [0, 0, 0, 3, 1, 2, 3]).1 0 := by
    rw [parsePublicKeys_sample_one]
    exact @SignFails.here Nat _ _ _ _ (sampleFailingSigner [1, 2, 3]) 0
      (by simp [findKnown, sampleFailingSigner]) rfl
  have hok : ok = false := hiff.mpr (Or.inr (Or.inr hf))
  rw [h1, hok, hnil hok]

/-- C18: a challenge with an empty payload decodes to no keys, so `proveOwnership` looks up
and signs nothing and answers `(true, empty payload)`. -/
theorem proveOwnership_empty {R : Type} (ParsePublicKey : Bytes → Option PublicKey)
    (signers : List (Signer R)) (sessionID : Bytes) (req : Request) (rand : R)
    (h : req.Payload = []) :
    parsePublicKeys ParsePublicKey req.Payload = ([], none) ∧
      proveOwnership ParsePublicKey signers sessionID req rand =
        ([Event.reply true []], rand) ∧
      signCalls (proveOwnership ParsePublicKey signers sessionID req rand).1 = [] ∧
      replies (proveOwnership ParsePublicKey signers sessionID req rand).1 = [(true, [])] := by
  have hp : parsePublicKeys ParsePublicKey req.Payload = ([], none) := by
    rw [h, parsePublicKeys, parsePublicKeysLoop_nil]
  have hrun : proveOwnership ParsePublicKey signers sessionID req rand =
      ([Event.reply true []], rand) := by
    simp only [proveOwnership, hp, proveOwnershipLoop]
    rfl
  exact ⟨hp, hrun, by rw [hrun]; rfl, by rw [hrun]; rfl⟩

theorem proveOwnership_empty_witness :
    proveOwnership sampleParse [sampleSigner [1, 2, 3]] [5]
      ⟨requestTypeHostKeysProve, true, []⟩ 0 = ([Event.reply true []], 0) :=
  (proveOwnership_empty sampleParse [sampleSigner [1, 2, 3]] [5]
    ⟨requestTypeHostKeysProve, true, []⟩ 0 rfl).2.1

/-! ## C19: termination of `parsePublicKeys` -/

/-- With one unit of fuel per four bytes and one to spare, the fuelled loop ends, agrees
with `parsePublicKeysLoop`, and counts its passes. -/
theorem parsePublicKeysFuel_spec (ParsePublicKey : Bytes → Option PublicKey) (fuel : Nat) :
    ∀ (p : Bytes) (keys : List PublicKey), p.length / 4 + 1 ≤ fuel →
      ∃ n, parsePublicKeysFuel ParsePublicKey fuel keys p =
          some (parsePublicKeysLoop ParsePublicKey keys p, n) ∧
        n ≤ p.length / 4 + 1 ∧
        ((parsePublicKeysLoop ParsePublicKey keys p).2 = none →
          n ≤ p.length / 4 ∧
          (parsePublicKeysLoop ParsePublicKey keys p).1.length = keys.length + n) := by
  induction fuel with
  | zero =>
    intro p keys h
    omega
  | succ fuel ih =>
    intro p keys h
    cases p with
    | nil =>
      exact ⟨0, by simp [parsePublicKeysFuel, parsePublicKeysLoop_nil]⟩
    | cons b p =>
      rw [parsePublicKeysLoop_cons]
      simp only [parsePublicKeysFuel, List.length_cons, gt_iff_lt, Nat.zero_lt_succ, if_true]
      cases hU : Unmarshal (b :: p) with
      | none => exact ⟨1, by simp⟩
      | some msg =>
        simp only
        cases hP : ParsePublicKey msg.Blob with
        | none => exact ⟨1, by simp⟩
        | some key =>
          simp only
          have hl := Unmarshal_length hU
          simp only [List.length_cons] at hl h
          obtain ⟨n, h1, h2, h3⟩ := ih msg.Rest (keys ++ [key]) (by omega)
          refine ⟨n + 1, by rw [h1], by omega, ?_⟩
          intro hok
          have h4 := h3 hok
          simp only [List.length_append, List.length_singleton] at h4
          exact ⟨by omega, by omega⟩

/-- C19, as stated, fails on the number of passes: on a one-byte payload the loop body runs
once (and reports a short read) although `len(p)/4` is zero, and on a one-byte key followed
by a stray byte it runs twice although `len(p)/4` is one. -/
theorem parsePublicKeys_terminates_counterexample :
    parsePublicKeysFuel sampleParse 1 [] [0] =
        some (([], some Error.failedToUnmarshalPayload), 1) ∧
      ¬ (1 ≤ ([0] : Bytes).length / 4) ∧
      parsePublicKeysFuel sampleParse 2 [] [0, 0, 0, 1, 7, 9] =
        some (([], some Error.failedToUnmarshalPayload), 2) ∧
      ¬ (2 ≤ ([0, 0, 0, 1, 7, 9] : Bytes).length / 4) := by
  decide

/-- C19 (amended): `parsePublicKeys` terminates on every payload: every pass through the
loop body either returns an error or goes on with a remainder shorter than its input by at
least the 4-byte length prefix, so at most `len(p)/4` passes go on and the body runs at
most `len(p)/4 + 1` times, the last of which may be the failing one; a successful decode
makes at most `len(p)/4` passes and returns one key per pass, at most `len(p)/4` keys. -/
theorem parsePublicKeys_terminates (ParsePublicKey : Bytes → Option PublicKey) (p : Bytes) :
    (∀ msg, Unmarshal p = some msg → msg.Rest.length + 4 ≤ p.length) ∧
    (∃ n, parsePublicKeysFuel ParsePublicKey (p.length / 4 + 1) [] p =
        some (parsePublicKeys ParsePublicKey p, n) ∧
      n ≤ p.length / 4 + 1 ∧
      ((parsePublicKeys ParsePublicKey p).2 = none →
        n ≤ p.length / 4 ∧ (parsePublicKeys ParsePublicKey p).1.length = n)) ∧
    ((parsePublicKeys ParsePublicKey p).2 = none →
      (parsePublicKeys ParsePublicKey p).1.length ≤ p.length / 4) := by
  obtain ⟨n, h1, h2, h3⟩ :=
    parsePublicKeysFuel_spec ParsePublicKey (p.length / 4 + 1) p [] (Nat.le_refl _)
  refine ⟨fun msg hm => Unmarshal_length hm, ⟨n, h1, h2, ?_⟩, ?_⟩
  · intro hok
    have h4 := h3 hok
    simp only [List.length_nil, Nat.zero_add] at h4
    exact h4
  · intro hok
    have h4 := h3 hok
    simp only [List.length_nil, Nat.zero_add] at h4
    rw [parsePublicKeys, h4.2]
    exact h4.1

/-- The two-key payload of 12 bytes decodes to 2 keys, no more than `12/4`. -/
theorem parsePublicKeys_terminates_witness :
    (parsePublicKeys sampleParse [0, 0, 0, 3, 1, 2, 3, 0, 0, 0, 1, 9]).1.length ≤
      ([0, 0, 0, 3, 1, 2, 3, 0, 0, 0, 1, 9] : Bytes).length / 4 :=
  (parsePublicKeys_terminates sampleParse [0, 0, 0, 3, 1, 2, 3, 0, 0, 0, 1, 9]).2.2
    (by rw [parsePublicKeys_sample_two])

end Sshext
